import Mathlib

/-!
Shallow embedding of the SeQUeNCe topology-construction pipeline
(`sequence/topology/topology.py`, `sequence/topology/network_impls.py`,
`sequence/topology/const_topo.py`) and proofs about it.

Modelling conventions:
* Python dicts read with fixed string keys become Lean structures; a key that
  the code reads with `.get`(default) becomes an `Option` field.
* Numeric config values are embedded as `ℤ` (Python ints: distances, seeds,
  delays derived by `int(...)`) or `ℚ` (values that flow through true division,
  `np.mean`, or hardware parameters).  Python `//` on integers is `Int.fdiv`
  (floor division); `int(x // 2)` on a mean is `⌊x / 2⌋`.
* Fallible code (`raise`, `assert`, unpacking) returns `Except String _`,
  the error string modelling the exception message (quotation marks dropped).
* The propagation-speed constant `SPEED_OF_LIGHT` lives outside the provided
  sources, so every delay computation is parameterised by `sol : ℚ`.
* Python's lexicographic string comparison (`dst_name > src.name`) is embedded
  by the structurally recursive `pyStrLt` on code points.
-/

deriving instance DecidableEq for Except

namespace Seq

/-- Python lexicographic string order on code points (`s1 < s2`). -/
def pyStrLt : List Char → List Char → Bool
  | [], [] => false
  | [], _ :: _ => true
  | _ :: _, [] => false
  | a :: as, b :: bs =>
    if a.val < b.val then true else if b.val < a.val then false else pyStrLt as bs

/-- `frozenset({a, b}) == frozenset({c, d})` for strings (order-independent
endpoint-pair match, including the degenerate `a = b` cases). -/
def pairMatch (a b c d : String) : Bool :=
  decide ((a = c ∧ b = d) ∨ (a = d ∧ b = c))

/-- A node declaration (one entry of `config["nodes"]`). -/
structure NodeDecl where
  name : String
  type : String
  seed : ℤ
  template : Option String
  deriving DecidableEq, Repr

/-- A quantum-connection declaration (one entry of `config["qconnections"]`). -/
structure QConnDecl where
  node1 : String
  node2 : String
  attenuation : ℚ
  distance : ℤ
  type : String
  seed : Option ℤ
  template : Option String
  deriving DecidableEq, Repr

/-- A classical-connection declaration (one entry of `config["cconnections"]`). -/
structure CConnDecl where
  node1 : String
  node2 : String
  distance : Option ℤ
  delay : Option ℚ
  deriving DecidableEq, Repr

/-- A quantum-channel declaration (one entry of `config["qchannels"]`). -/
structure QChanDecl where
  name : Option String
  source : String
  dst : String
  distance : ℤ
  attenuation : ℚ
  deriving DecidableEq, Repr

/-- A classical-channel declaration (one entry of `config["cchannels"]`). -/
structure CChanDecl where
  name : Option String
  source : String
  dst : String
  distance : Option ℤ
  delay : Option ℚ
  deriving DecidableEq, Repr

/-- The sections of a BSM-family config dict that the pipeline reads and
mutates (`Topology._run_pipeline` working document). -/
structure Config where
  nodes : List NodeDecl
  qconnections : List QConnDecl
  cconnections : List CConnDecl
  qchannels : List QChanDecl
  cchannels : List CChanDecl
  deriving DecidableEq, Repr

/-- `"meet_in_the_middle"` (const_topo.MEET_IN_THE_MID). -/
def MEET_IN_THE_MID : String := "meet_in_the_middle"

/-- The auto-generated midpoint name `f"BSM.{node1}.{node2}.auto"`
(BsmNetworkImpl._handle_qconnection). -/
def bsmAutoName (n1 n2 : String) : String :=
  "BSM." ++ n1 ++ "." ++ n2 ++ ".auto"

/-- One classical declaration's contribution to the derived delay:
`cc.get(DELAY, cc.get(DISTANCE, 1000) / SPEED_OF_LIGHT)`
(Topology._add_qconnections), parameterised by the speed constant `sol`. -/
def ccContribution (sol : ℚ) (delay : Option ℚ) (distance : Option ℤ) : ℚ :=
  delay.getD (((distance.getD 1000 : ℤ) : ℚ) / sol)

/-- The `cc_delay` list collected by `Topology._add_qconnections` for endpoint
pair `{n1, n2}`: classical channels first, then classical connections, each
matching by unordered endpoint pair. -/
def matchingDelays (sol : ℚ) (cfg : Config) (n1 n2 : String) : List ℚ :=
  (cfg.cchannels.filter (fun cc => pairMatch cc.source cc.dst n1 n2)).map
      (fun cc => ccContribution sol cc.delay cc.distance)
    ++ (cfg.cconnections.filter (fun c => pairMatch c.node1 c.node2 n1 n2)).map
      (fun c => ccContribution sol c.delay c.distance)

/-- `BsmNetworkImpl._handle_qconnection`: expand one quantum connection,
appending the auto midpoint node declaration, the two quantum-channel
declarations and the four classical-channel declarations; any connection type
other than meet-in-the-middle raises `NotImplementedError`. -/
def handle_qconnection (q : QConnDecl) (ccDelay : ℤ) (cfg : Config) :
    Except String Config :=
  if q.type = MEET_IN_THE_MID then
    let bsm := bsmAutoName q.node1 q.node2
    let half : ℤ := Int.fdiv q.distance 2
    .ok { cfg with
      nodes := cfg.nodes ++ [⟨bsm, "BSMNode", q.seed.getD 0, q.template⟩],
      qchannels := cfg.qchannels ++
        [⟨some ("QC." ++ q.node1 ++ "." ++ bsm), q.node1, bsm, half, q.attenuation⟩,
         ⟨some ("QC." ++ q.node2 ++ "." ++ bsm), q.node2, bsm, half, q.attenuation⟩],
      cchannels := cfg.cchannels ++
        [⟨some ("CC." ++ q.node1 ++ "." ++ bsm), q.node1, bsm, some half, some (ccDelay : ℚ)⟩,
         ⟨some ("CC." ++ bsm ++ "." ++ q.node1), bsm, q.node1, some half, some (ccDelay : ℚ)⟩,
         ⟨some ("CC." ++ q.node2 ++ "." ++ bsm), q.node2, bsm, some half, some (ccDelay : ℚ)⟩,
         ⟨some ("CC." ++ bsm ++ "." ++ q.node2), bsm, q.node2, some half, some (ccDelay : ℚ)⟩] }
  else
    .error ("Unknown quantum connection type " ++ q.type)

/-- One iteration of the loop in `Topology._add_qconnections`: collect the
matching classical delays from the current config, fail (`assert 0`) when none
exist, otherwise integer-halve their mean and delegate to the impl. -/
def qconnection_step (sol : ℚ) (cfg : Config) (q : QConnDecl) :
    Except String Config :=
  let vals := matchingDelays sol cfg q.node1 q.node2
  if vals.isEmpty then .error "AssertionError"
  else handle_qconnection q ⌊vals.sum / (vals.length : ℚ) / 2⌋ cfg

/-- `Topology._add_qconnections`: process the quantum-connection declarations
in declaration order, threading the (mutated-in-place) config. -/
def add_qconnections (sol : ℚ) (cfg : Config) : Except String Config :=
  cfg.qconnections.foldlM (qconnection_step sol) cfg

/-! ### Channel installation (`Topology._add_qchannels`, `_add_cchannels`) -/

/-- A constructed `QuantumChannel` object: its declared numeric parameters,
the resolved source node object (type `α`) and the destination *name*
(destination is not resolved at install time). -/
structure QChanObj (α : Type) where
  name : String
  attenuation : ℚ
  distance : ℤ
  src : α
  dst : String
  deriving DecidableEq, Repr

/-- A constructed `ClassicalChannel` object. -/
structure CChanObj (α : Type) where
  name : String
  distance : ℤ
  delay : ℚ
  src : α
  dst : String
  deriving DecidableEq, Repr

/-- `Topology._add_qchannels`: for each declaration, resolve the source via
timeline lookup; skip silently when unresolved, otherwise append one channel
object with the declared parameters. -/
def add_qchannels {α : Type} (lookup : String → Option α)
    (decls : List QChanDecl) : List (QChanObj α) :=
  decls.foldl
    (fun acc qc =>
      match lookup qc.source with
      | some node =>
        acc ++ [⟨qc.name.getD ("qc-" ++ qc.source ++ "-" ++ qc.dst),
                 qc.attenuation, qc.distance, node, qc.dst⟩]
      | none => acc)
    []

/-- `Topology._make_classical_channel`: resolve the source, skip silently when
unresolved; `name or f"cc-{src}-{dst}"` treats both a missing and an empty
name as absent. -/
def make_classical_channel {α : Type} (lookup : String → Option α)
    (src dst : String) (distance : ℤ) (delay : ℚ) (name : Option String) :
    Option (CChanObj α) :=
  match lookup src with
  | some node =>
    let nm := match name with
      | some s => if s = "" then "cc-" ++ src ++ "-" ++ dst else s
      | none => "cc-" ++ src ++ "-" ++ dst
    some ⟨nm, distance, delay, node, dst⟩
  | none => none

/-- `Topology._add_cchannels`: install each classical-channel declaration with
defaults `distance = -1`, `delay = -1` for absent keys. -/
def add_cchannels {α : Type} (lookup : String → Option α)
    (decls : List CChanDecl) : List (CChanObj α) :=
  decls.foldl
    (fun acc cc =>
      match make_classical_channel lookup cc.source cc.dst
          (cc.distance.getD (-1)) (cc.delay.getD (-1)) cc.name with
      | some obj => acc ++ [obj]
      | none => acc)
    []

/-! ### Midpoint-to-endpoint map (`BsmNetworkImpl._map_bsm_routers`,
`_add_bsm_node_to_router`) -/

/-- Python dict-with-list-append: append `v` to the entry of `k`, creating the
entry (at the end, in insertion order) when absent. -/
def assocAppend (m : List (String × List String)) (k v : String) :
    List (String × List String) :=
  match m with
  | [] => [(k, [v])]
  | (k', vs) :: rest =>
    if k' = k then (k', vs ++ [v]) :: rest else (k', vs) :: assocAppend rest k v

/-- First-match association lookup (Python dict access). -/
def lookupA {β : Type} (m : List (String × β)) (k : String) : Option β :=
  match m with
  | [] => none
  | (k', v) :: rest => if k' = k then some v else lookupA rest k

/-- `BsmNetworkImpl._map_bsm_routers`: record, for every quantum-channel
declaration, its source under its destination name — whether or not the
destination is a midpoint. -/
def map_bsm_routers (qcs : List QChanDecl) : List (String × List String) :=
  qcs.foldl (fun m qc => assocAppend m qc.dst qc.source) []

/-- `BsmNetworkImpl._add_bsm_node_to_router`: unpack every entry as exactly two
source names (`r0_str, r1_str = bsm_to_router_map[bsm]`; any other arity raises
`ValueError`), then register the midpoint on each endpoint that resolves.
Returns the list of `add_bsm_node(bsm, other)` registrations performed. -/
def add_bsm_node_to_router {α : Type} (lookup : String → Option α)
    (m : List (String × List String)) :
    Except String (List (α × String × String)) :=
  m.foldlM
    (fun acc e =>
      match e.2 with
      | [r0, r1] =>
        let acc1 := match lookup r0 with
          | some n0 => acc ++ [(n0, e.1, r1)]
          | none => acc
        let acc2 := match lookup r1 with
          | some n1 => acc1 ++ [(n1, e.1, r0)]
          | none => acc1
        .ok acc2
      | _ => .error "ValueError: not exactly two values to unpack")
    []

/-! ### Node types and BSM-family node creation (`const_topo.NodeType`,
`BsmNetworkImpl._create_node`) -/

/-- `const_topo.NodeType` members. -/
inductive NodeTy
  | quantumRouter
  | dqcNode
  | bsmNode
  | qkdNode
  | orchestrator
  | client
  deriving DecidableEq, Repr

/-- `t + " is not a valid NodeType"` — the `ValueError` raised by the enum
constructor `NodeType(node_type)` on an unknown type string. -/
def invalidTyMsg (t : String) : String := t ++ " is not a valid NodeType"

/-- `NodeType(node_type)`: parse a type string, raising `ValueError` for
strings that are not enum values. -/
def nodeTyOf : String → Except String NodeTy
  | "QuantumRouter" => .ok .quantumRouter
  | "DQCNode" => .ok .dqcNode
  | "BSMNode" => .ok .bsmNode
  | "QKDNode" => .ok .qkdNode
  | "QlanOrchestratorNode" => .ok .orchestrator
  | "QlanClientNode" => .ok .client
  | t => .error (invalidTyMsg t)

/-- `const_topo.MIDPOINT_NODE_TYPES`. -/
def isMidpointTy (t : NodeTy) : Bool := t = .bsmNode

/-- The `NotImplementedError` message of `BsmNetworkImpl._create_node` for a
type string with no `NODE_TYPES` entry. -/
def unregisteredMsg (t : String) : String :=
  "NodeType " ++ t ++ " has no entry in NODE_TYPES. " ++
    "Register it in the topology NODE_TYPES dict."

/-- A constructed node object (name, declared type string, seed). -/
structure NodeObj where
  name : String
  type : String
  seed : ℤ
  deriving DecidableEq, Repr

/-- `BsmNetworkImpl._create_node`: `match NodeType(node_type)` (the enum
constructor raises first for invalid strings); the BSM branch reads the
midpoint-to-endpoint map (`KeyError` when absent); any other valid type must
be registered in `NODE_TYPES` or a registration-instructing
`NotImplementedError` is raised. -/
def create_node (registry : List String) (bsmMap : List (String × List String))
    (n : NodeDecl) : Except String NodeObj :=
  match nodeTyOf n.type with
  | .error e => .error e
  | .ok .bsmNode =>
    match lookupA bsmMap n.name with
    | none => .error ("KeyError: " ++ n.name)
    | some _ => .ok ⟨n.name, n.type, n.seed⟩
  | .ok _ =>
    if n.type ∈ registry then .ok ⟨n.name, n.type, n.seed⟩
    else .error (unregisteredMsg n.type)

/-- `Topology._add_nodes` with `BsmNetworkImpl` (whose `_ordered_node_dicts`
is the identity): construct every declared node in order, aborting on the
first failure. -/
def add_nodes (registry : List String) (bsmMap : List (String × List String))
    (decls : List NodeDecl) : Except String (List NodeObj) :=
  decls.foldlM (fun acc n => (create_node registry bsmMap n).map (acc ++ [·])) []

/-- The stages of `Topology._run_pipeline` relevant to node/channel existence,
for the BSM family: connection expansion, midpoint-map construction, node
construction, midpoint wiring, channel installation.  (Timeline creation,
classical-connection fan-out and forwarding-table generation are omitted: they
do not create node or quantum/classical channel objects relevant to the claims
stated below, and the forwarding stage is modelled separately.)  Lookup of an
entity by name models `Timeline.get_entity_by_name` over the constructed
nodes. -/
def run_bsm_pipeline (registry : List String) (sol : ℚ) (cfg : Config) :
    Except String
      (List NodeObj × List (QChanObj NodeObj) × List (CChanObj NodeObj) ×
        List (NodeObj × String × String)) := do
  let cfg1 ← add_qconnections sol cfg
  let nodes ← add_nodes registry (map_bsm_routers cfg1.qchannels) cfg1.nodes
  let wires ← add_bsm_node_to_router
    (fun s => nodes.find? (fun nd => nd.name == s)) (map_bsm_routers cfg1.qchannels)
  .ok (nodes,
    add_qchannels (fun s => nodes.find? (fun nd => nd.name == s)) cfg1.qchannels,
    add_cchannels (fun s => nodes.find? (fun nd => nd.name == s)) cfg1.cchannels,
    wires)

/-! ### QLAN family (`Topology._add_qlan_parameters`, `QlanNetworkImpl`) -/

/-- `"QlanOrchestratorNode"` (const_topo.ORCHESTRATOR). -/
def ORCHESTRATOR : String := "QlanOrchestratorNode"

/-- `"QlanClientNode"` (const_topo.CLIENT). -/
def CLIENT : String := "QlanClientNode"

/-- The `MemoryArray` parameter mapping of a template (only the five keys the
QLAN code reads). -/
structure MemArrParams where
  fidelity : Option ℚ
  frequency : Option ℚ
  efficiency : Option ℚ
  coherence_time : Option ℚ
  wavelength : Option ℚ
  deriving DecidableEq, Repr

/-- The empty parameter mapping `{}`. -/
def emptyMemArr : MemArrParams := ⟨none, none, none, none, none⟩

/-- A hardware template: a mapping from component kind to parameters, of which
the QLAN code reads only `"MemoryArray"`. -/
structure QlanTemplate where
  memoryArray : Option MemArrParams
  deriving DecidableEq, Repr

/-- The sections and top-level keys of a QLAN config read by
`Topology._add_qlan_parameters` and `QlanNetworkImpl`. -/
structure QlanConfig where
  nodes : List NodeDecl
  templates : List (String × QlanTemplate)
  local_memories : Option ℕ
  client_number : Option ℕ
  measurement_bases : Option String
  memo_fidelity_orch : Option ℚ
  memo_frequency_orch : Option ℚ
  memo_efficiency_orch : Option ℚ
  memo_coherence_orch : Option ℚ
  memo_wavelength_orch : Option ℚ
  memo_fidelity_client : Option ℚ
  memo_frequency_client : Option ℚ
  memo_efficiency_client : Option ℚ
  memo_coherence_client : Option ℚ
  memo_wavelength_client : Option ℚ
  deriving DecidableEq, Repr

/-- The QLAN structural and hardware parameters resolved onto the topology by
`Topology._add_qlan_parameters`. -/
structure QlanParams where
  n_local_memories : ℕ
  n_clients : ℕ
  meas_bases : String
  fidelity_orch : ℚ
  frequency_orch : ℚ
  efficiency_orch : ℚ
  coherence_orch : ℚ
  wavelength_orch : ℚ
  fidelity_client : ℚ
  frequency_client : ℚ
  efficiency_client : ℚ
  coherence_client : ℚ
  wavelength_client : ℚ
  deriving DecidableEq, Repr

/-- `Topology._qlan_memarray`: the `MemoryArray` mapping of the first node of
`node_type` whose template reference is non-empty and resolvable; `{}` when no
such node exists.  (The loop keeps scanning past nodes of the type whose
template is missing, empty, or unknown.) -/
def qlan_memarray (templates : List (String × QlanTemplate)) (node_type : String) :
    List NodeDecl → MemArrParams
  | [] => emptyMemArr
  | n :: rest =>
    if n.type = node_type then
      match n.template with
      | some tname =>
        if tname ≠ "" then
          match lookupA templates tname with
          | some tpl => tpl.memoryArray.getD emptyMemArr
          | none => qlan_memarray templates node_type rest
        else qlan_memarray templates node_type rest
      | none => qlan_memarray templates node_type rest
    else qlan_memarray templates node_type rest

/-- `Topology._add_qlan_parameters`: structural params, then the dialect
split — the legacy flat branch is selected iff the single key
`memo_fidelity_orch` is present at top level; otherwise the per-role template
branch resolves via `_qlan_memarray`.  Both branches fall back to the fixed
defaults `0.9, 2000, 1, -1, 500`. -/
def add_qlan_parameters (cfg : QlanConfig) : QlanParams :=
  let base : QlanParams := {
    n_local_memories := cfg.local_memories.getD 1
    n_clients := cfg.client_number.getD 1
    meas_bases := cfg.measurement_bases.getD "z"
    fidelity_orch := 0, frequency_orch := 0, efficiency_orch := 0,
    coherence_orch := 0, wavelength_orch := 0,
    fidelity_client := 0, frequency_client := 0, efficiency_client := 0,
    coherence_client := 0, wavelength_client := 0 }
  if cfg.memo_fidelity_orch.isSome then
    { base with
      fidelity_orch := cfg.memo_fidelity_orch.getD (9/10)
      frequency_orch := cfg.memo_frequency_orch.getD 2000
      efficiency_orch := cfg.memo_efficiency_orch.getD 1
      coherence_orch := cfg.memo_coherence_orch.getD (-1)
      wavelength_orch := cfg.memo_wavelength_orch.getD 500
      fidelity_client := cfg.memo_fidelity_client.getD (9/10)
      frequency_client := cfg.memo_frequency_client.getD 2000
      efficiency_client := cfg.memo_efficiency_client.getD 1
      coherence_client := cfg.memo_coherence_client.getD (-1)
      wavelength_client := cfg.memo_wavelength_client.getD 500 }
  else
    let om := qlan_memarray cfg.templates ORCHESTRATOR cfg.nodes
    let cm := qlan_memarray cfg.templates CLIENT cfg.nodes
    { base with
      fidelity_orch := om.fidelity.getD (9/10)
      frequency_orch := om.frequency.getD 2000
      efficiency_orch := om.efficiency.getD 1
      coherence_orch := om.coherence_time.getD (-1)
      wavelength_orch := om.wavelength.getD 500
      fidelity_client := cm.fidelity.getD (9/10)
      frequency_client := cm.frequency.getD 2000
      efficiency_client := cm.efficiency.getD 1
      coherence_client := cm.coherence_time.getD (-1)
      wavelength_client := cm.wavelength.getD 500 }

/-- `QlanNetworkImpl._ordered_node_dicts`: `others + clients + orchestrators`,
each group filtered from the declaration list in order. -/
def ordered_node_dicts (node_list : List NodeDecl) : List NodeDecl :=
  (node_list.filter fun n => ¬(n.type = CLIENT) ∧ ¬(n.type = ORCHESTRATOR))
    ++ (node_list.filter fun n => n.type = CLIENT)
    ++ (node_list.filter fun n => n.type = ORCHESTRATOR)

/-- A constructed `QlanClientNode`: the arguments passed to its constructor by
`QlanNetworkImpl._create_node` (memory-array size is the literal `1`). -/
structure QlanClientObj where
  name : String
  seed : ℤ
  fidelity : ℚ
  frequency : ℚ
  efficiency : ℚ
  coherence_time : ℚ
  wavelength : ℚ
  deriving DecidableEq, Repr

/-- A constructed `QlanOrchestratorNode`: constructor arguments, the list of
remote client memories existing at construction time (modelled by the owning
client names, in creation order), and the measurement bases applied by
`update_bases`. -/
structure QlanOrchObj where
  name : String
  seed : ℤ
  n_local : ℕ
  remote : List String
  fidelity : ℚ
  frequency : ℚ
  efficiency : ℚ
  coherence_time : ℚ
  wavelength : ℚ
  bases : String
  deriving DecidableEq, Repr

/-- `Topology._add_nodes` template resolution for one node:
`self.templates.get(node_config.get(TEMPLATE), {})`. -/
def nodeTemplate (templates : List (String × QlanTemplate)) (n : NodeDecl) :
    QlanTemplate :=
  match n.template with
  | some t => (lookupA templates t).getD ⟨none⟩
  | none => ⟨none⟩

/-- `QlanNetworkImpl._create_node` for one declaration: clients and
orchestrators read their memory parameters from the node's resolved template
`MemoryArray` only, with the fixed fallbacks `0.9, 2000, 1, -1, 500`; the
orchestrator captures the client memories accumulated so far; any other type
raises `ValueError`. -/
def qlan_create_node (templates : List (String × QlanTemplate))
    (params : QlanParams)
    (st : List QlanClientObj × List QlanOrchObj × List String) (n : NodeDecl) :
    Except String (List QlanClientObj × List QlanOrchObj × List String) :=
  let memo_arr := (nodeTemplate templates n).memoryArray.getD emptyMemArr
  if n.type = CLIENT then
    let obj : QlanClientObj :=
      ⟨n.name, n.seed,
       memo_arr.fidelity.getD (9/10), memo_arr.frequency.getD 2000,
       memo_arr.efficiency.getD 1, memo_arr.coherence_time.getD (-1),
       memo_arr.wavelength.getD 500⟩
    .ok (st.1 ++ [obj], st.2.1, st.2.2 ++ [n.name])
  else if n.type = ORCHESTRATOR then
    let obj : QlanOrchObj :=
      ⟨n.name, n.seed, params.n_local_memories, st.2.2,
       memo_arr.fidelity.getD (9/10), memo_arr.frequency.getD 2000,
       memo_arr.efficiency.getD 1, memo_arr.coherence_time.getD (-1),
       memo_arr.wavelength.getD 500, params.meas_bases⟩
    .ok (st.1, st.2.1 ++ [obj], st.2.2)
  else
    .error ("Unknown QLAN node type " ++ n.type)

/-- The QLAN node-construction pass: parameter resolution, reordering per
`_ordered_node_dicts`, then single-pass construction. -/
def qlan_build_nodes (cfg : QlanConfig) :
    Except String (List QlanClientObj × List QlanOrchObj) := do
  let params := add_qlan_parameters cfg
  let st ← (ordered_node_dicts cfg.nodes).foldlM
    (qlan_create_node cfg.templates params) ([], [], [])
  .ok (st.1, st.2.1)

/-! ### Forwarding-table generation (`BsmNetworkImpl._generate_forwarding_table`)

The cost dict maps each quantum-channel destination (midpoint) name to the
Python list `[router_k, ..., router_1, total_distance]` — all but the last
element are strings, the last is an integer.  `PyV` models such heterogeneous
Python list elements. -/

/-- A Python value that is either a string or an integer. -/
inductive PyV
  | s (v : String)
  | i (v : ℤ)
  deriving DecidableEq, Repr

/-- `lst[-1] += d` for a Python list whose last element is an integer.  (On a
non-integer last element Python would raise `TypeError`; `buildCosts` only
ever produces lists ending in an integer, so that branch is unreachable and
modelled as the identity.) -/
def addLastI : List PyV → ℤ → List PyV
  | [], _ => []
  | [.i t], d => [.i (t + d)]
  | [x], _ => [x]
  | x :: rest, d => x :: addLastI rest d

/-- One iteration of the cost-collection loop: create `[router, d]` for a new
midpoint (appended in insertion order) or prepend the router and add the
distance to the trailing total. -/
def costsAdd (m : List (String × List PyV)) (bsm router : String) (d : ℤ) :
    List (String × List PyV) :=
  match m with
  | [] => [(bsm, [.s router, .i d])]
  | (k, vs) :: rest =>
    if k = bsm then (k, .s router :: addLastI vs d) :: rest
    else (k, vs) :: costsAdd rest bsm router d

/-- The `costs` dict of `_generate_forwarding_table`, built from the installed
quantum-channel objects (`qc.sender.name`, `qc.receiver`, `qc.distance`);
`nameOf` extracts a node object's name. -/
def buildCosts {α : Type} (nameOf : α → String) (qcs : List (QChanObj α)) :
    List (String × List PyV) :=
  qcs.foldl (fun m qc => costsAdd m qc.dst (nameOf qc.src) qc.distance) []

/-- `graph.add_weighted_edges_from(costs.values())`: each value must unpack as
a `(u, v, w)` triple; any other arity raises.  (By construction of
`buildCosts` a three-element value is always `[string, string, int]`.) -/
def parseEdge : List PyV → Except String (String × String × ℤ)
  | [.s a, .s b, .i w] => .ok (a, b, w)
  | _ => .error "networkx: cost entry does not unpack as a weighted edge"

/-- All cost-graph edges, or the error raised on the first malformed entry. -/
def buildEdges (cs : List (String × List PyV)) :
    Except String (List (String × String × ℤ)) :=
  cs.mapM (fun e => parseEdge e.2)

/-- The nodes added to the cost graph up front: every non-midpoint declared
node, in declaration order (`NodeType(node[TYPE])` raises on an invalid type
string). -/
def graph_base_nodes (decls : List NodeDecl) : Except String (List String) :=
  decls.foldlM
    (fun acc n =>
      (nodeTyOf n.type).map fun t => if isMidpointTy t then acc else acc ++ [n.name])
    []

/-- networkx silently adds an edge's endpoints to the graph when absent. -/
def addNodeIfAbsent (ns : List String) (x : String) : List String :=
  if x ∈ ns then ns else ns ++ [x]

/-- The cost graph's node list after `add_weighted_edges_from`: the base nodes
followed by previously unseen edge endpoints in edge order. -/
def graph_nodes_with_edges (base : List String)
    (es : List (String × String × ℤ)) : List String :=
  es.foldl (fun ns e => addNodeIfAbsent (addNodeIfAbsent ns e.1) e.2.1) base

/-- The weight of the undirected edge between `u` and `v`, if any; with
parallel edges the graph library keeps the last-assigned weight. -/
def edgeWeight (es : List (String × String × ℤ)) (u v : String) : Option ℤ :=
  ((es.filter fun e => decide ((e.1 = u ∧ e.2.1 = v) ∨ (e.1 = v ∧ e.2.1 = u))).getLast?).map
    (·.2.2)

/-- `u` and `v` are joined by an edge. -/
def adjacent (es : List (String × String × ℤ)) (u v : String) : Prop :=
  (edgeWeight es u v).isSome = true

/-- The cost-dict value accumulated by a run of same-destination channels on
top of a previous value (`none` = key absent so far). -/
def costsValue {α : Type} (nameOf : α → String) :
    Option (List PyV) → List (QChanObj α) → Option (List PyV) :=
  List.foldl fun acc qc =>
    match acc with
    | none => some [PyV.s (nameOf qc.src), PyV.i qc.distance]
    | some vs => some (PyV.s (nameOf qc.src) :: addLastI vs qc.distance)

/-- Total weight of the consecutive edges of a vertex sequence. -/
def pathWeight (es : List (String × String × ℤ)) : List String → ℤ
  | a :: b :: rest => (edgeWeight es a b).getD 0 + pathWeight es (b :: rest)
  | _ => 0

/-- `p` is a simple path from `u` to `v` in the (undirected) edge set. -/
def IsPath (es : List (String × String × ℤ)) (u v : String) (p : List String) :
    Prop :=
  p.head? = some u ∧ p.getLast? = some v ∧ List.Chain' (adjacent es) p ∧ p.Nodup

/-- `p` is a path from `u` to `v` of minimal total weight. -/
def IsShortestPath (es : List (String × String × ℤ)) (u v : String)
    (p : List String) : Prop :=
  IsPath es u v p ∧ ∀ q, IsPath es u v q → pathWeight es p ≤ pathWeight es q

/-- Some path from `u` to `v` exists. -/
def Reachable (es : List (String × String × ℤ)) (u v : String) : Prop :=
  ∃ p, IsPath es u v p

/-- The shortest-path query of the static branch: paths are computed once per
unordered pair, the pair being canonically ordered by Python string comparison
(`if dst_name > src.name`), and reversed for the other direction. -/
def spQuery (sp : String → String → Option (List String)) (src dst : String) :
    Option (List String) :=
  if pyStrLt src.data dst.data then sp src dst
  else (sp dst src).map List.reverse

/-- The static (centralized) branch: for every non-midpoint node and every
graph node other than itself, query a path and install a forwarding rule
`(source, destination, next hop = path[1])`; a `NetworkXNoPath` outcome
(`sp = none`) is silently skipped.  `sp` stands for the external graph
library's `dijkstra_path`. -/
def staticRules (sp : String → String → Option (List String))
    (nodeIter gNodes : List String) : List (String × String × String) :=
  nodeIter.flatMap fun src =>
    gNodes.filterMap fun dst =>
      if src = dst then none
      else
        match spQuery sp src dst with
        | some p => some (src, dst, p.getD 1 "")
        | none => none

/-- Python `in` over a cost list: equality only ever holds against the string
elements. -/
def pyMem (x : PyV) (vs : List PyV) : Bool :=
  vs.any fun y => y = x

/-- One iteration of the distributed branch for the node called `name`: if
the cost entry contains the name, record `link_cost[neighbor] = cost_info[2]`
where `neighbor` is `cost_info[0]` unless that equals the name, then
`cost_info[1]`; out-of-range indexing raises `IndexError`. -/
def distStep (name : String) (acc : List (PyV × PyV)) (e : String × List PyV) :
    Except String (List (PyV × PyV)) :=
  if pyMem (.s name) e.2 then
    match e.2.get? 0 with
    | none => .error "IndexError"
    | some c0 => do
      let neighbor ←
        if c0 ≠ PyV.s name then pure c0
        else
          match e.2.get? 1 with
          | some c1 => pure c1
          | none => Except.error "IndexError"
      match e.2.get? 2 with
      | some c2 => .ok (acc ++ [(neighbor, c2)])
      | none => .error "IndexError"
  else .ok acc

/-- The distributed branch, for one non-midpoint node: walk the cost dict in
insertion order applying `distStep`.  Returns the assignment sequence in
execution order. -/
def distAssignsNode (costs : List (String × List PyV)) (name : String) :
    Except String (List (PyV × PyV)) :=
  costs.foldlM (distStep name) []

/-- Python dict assignment `d[k] = v` (overwrite in place, insert at end). -/
def dictUpsert (d : List (PyV × PyV)) (k v : PyV) : List (PyV × PyV) :=
  match d with
  | [] => [(k, v)]
  | (k', v') :: rest =>
    if k' = k then (k, v) :: rest else (k', v') :: dictUpsert rest k v

/-- The final `link_cost` dict state after a sequence of assignments. -/
def applyAssigns (xs : List (PyV × PyV)) : List (PyV × PyV) :=
  xs.foldl (fun d kv => dictUpsert d kv.1 kv.2) []

/-- The empty working config. -/
def emptyConfig : Config := ⟨[], [], [], [], []⟩

/-- One meet-in-the-middle connection of a star, from the center to a leaf
with a total distance. -/
def starConnect (center : String) (att : ℚ) (ld : String × ℤ) : QConnDecl :=
  ⟨center, ld.1, att, ld.2, MEET_IN_THE_MID, none, none⟩

/-- A star of meet-in-the-middle connections expanded by
`_handle_qconnection` (the derived classical delay `dl` is irrelevant to the
cost graph). -/
def star_config (center : String) (att : ℚ) (dl : ℤ)
    (leaves : List (String × ℤ)) : Except String Config :=
  leaves.foldlM (fun c ld => handle_qconnection (starConnect center att ld) dl c)
    emptyConfig

/-- The expected cost dict of an expanded star: one entry per leaf's auto
midpoint, holding `[leaf, center, half + half]` (insertion order: the
center→midpoint channel is installed first, then the leaf→midpoint one). -/
def starCosts (center : String) (leaves : List (String × ℤ)) :
    List (String × List PyV) :=
  leaves.map fun ld =>
    (bsmAutoName center ld.1,
     [PyV.s ld.1, PyV.s center, PyV.i (Int.fdiv ld.2 2 + Int.fdiv ld.2 2)])

/-- The edge list of the one-midpoint concrete graph used to discharge the
shortest-path oracle contract on a concrete instance. -/
def witnessEdges : List (String × String × ℤ) := [("B", "A", 7)]

/-- A concrete shortest-path oracle for `witnessEdges`: the single unordered
pair `{A, B}` is joined by the one-edge path, everything else is
unreachable. -/
def spWitness : String → String → Option (List String) := fun u v =>
  if u = "A" ∧ v = "B" then some ["A", "B"]
  else if u = "B" ∧ v = "A" then some ["B", "A"]
  else none

/-! ## Theorems -/

/-- C4: a meet-in-the-middle quantum connection with endpoints `n1, n2` and
total distance `d` appends exactly one midpoint node declaration of the
reserved type `BSMNode`, named deterministically from the endpoints with the
literal `.auto` suffix; two quantum-channel declarations, one from each
endpoint to the midpoint, with distance `d` floor-divided by two and the
connection's attenuation; and classical-channel declarations in both
directions between each endpoint and the midpoint carrying the derived delay.
No other section changes.  Any other connection kind raises the fatal
unsupported-connection-kind error and appends nothing. -/
theorem c4_meet_expansion (q : QConnDecl) (d : ℤ) (cfg : Config) :
    (q.type = MEET_IN_THE_MID →
      handle_qconnection q d cfg = .ok { cfg with
        nodes := cfg.nodes ++
          [⟨bsmAutoName q.node1 q.node2, "BSMNode", q.seed.getD 0, q.template⟩],
        qchannels := cfg.qchannels ++
          [⟨some ("QC." ++ q.node1 ++ "." ++ bsmAutoName q.node1 q.node2),
            q.node1, bsmAutoName q.node1 q.node2, Int.fdiv q.distance 2, q.attenuation⟩,
           ⟨some ("QC." ++ q.node2 ++ "." ++ bsmAutoName q.node1 q.node2),
            q.node2, bsmAutoName q.node1 q.node2, Int.fdiv q.distance 2, q.attenuation⟩],
        cchannels := cfg.cchannels ++
          [⟨some ("CC." ++ q.node1 ++ "." ++ bsmAutoName q.node1 q.node2),
            q.node1, bsmAutoName q.node1 q.node2, some (Int.fdiv q.distance 2), some (d : ℚ)⟩,
           ⟨some ("CC." ++ bsmAutoName q.node1 q.node2 ++ "." ++ q.node1),
            bsmAutoName q.node1 q.node2, q.node1, some (Int.fdiv q.distance 2), some (d : ℚ)⟩,
           ⟨some ("CC." ++ q.node2 ++ "." ++ bsmAutoName q.node1 q.node2),
            q.node2, bsmAutoName q.node1 q.node2, some (Int.fdiv q.distance 2), some (d : ℚ)⟩,
           ⟨some ("CC." ++ bsmAutoName q.node1 q.node2 ++ "." ++ q.node2),
            bsmAutoName q.node1 q.node2, q.node2, some (Int.fdiv q.distance 2), some (d : ℚ)⟩] } ∧
      bsmAutoName q.node1 q.node2 = ("BSM." ++ q.node1 ++ "." ++ q.node2) ++ ".auto") ∧
    (q.type ≠ MEET_IN_THE_MID →
      handle_qconnection q d cfg =
        .error ("Unknown quantum connection type " ++ q.type)) := by
  constructor
  · intro h
    constructor
    · simp [handle_qconnection, h]
    · simp [bsmAutoName, String.append_assoc]
  · intro h
    simp [handle_qconnection, h]

/-- Witness for C4 at a concrete connection (both branches). -/
theorem c4_meet_expansion_witness :
    handle_qconnection ⟨"a", "b", 1, 5, MEET_IN_THE_MID, none, none⟩ 7 emptyConfig =
      .ok { emptyConfig with
        nodes := emptyConfig.nodes ++ [⟨bsmAutoName "a" "b", "BSMNode", 0, none⟩],
        qchannels := emptyConfig.qchannels ++
          [⟨some ("QC." ++ "a" ++ "." ++ bsmAutoName "a" "b"), "a", bsmAutoName "a" "b",
            Int.fdiv 5 2, 1⟩,
           ⟨some ("QC." ++ "b" ++ "." ++ bsmAutoName "a" "b"), "b", bsmAutoName "a" "b",
            Int.fdiv 5 2, 1⟩],
        cchannels := emptyConfig.cchannels ++
          [⟨some ("CC." ++ "a" ++ "." ++ bsmAutoName "a" "b"), "a", bsmAutoName "a" "b",
            some (Int.fdiv 5 2), some ((7 : ℤ) : ℚ)⟩,
           ⟨some ("CC." ++ bsmAutoName "a" "b" ++ "." ++ "a"), bsmAutoName "a" "b", "a",
            some (Int.fdiv 5 2), some ((7 : ℤ) : ℚ)⟩,
           ⟨some ("CC." ++ "b" ++ "." ++ bsmAutoName "a" "b"), "b", bsmAutoName "a" "b",
            some (Int.fdiv 5 2), some ((7 : ℤ) : ℚ)⟩,
           ⟨some ("CC." ++ bsmAutoName "a" "b" ++ "." ++ "b"), bsmAutoName "a" "b", "b",
            some (Int.fdiv 5 2), some ((7 : ℤ) : ℚ)⟩] } ∧
    handle_qconnection ⟨"a", "b", 1, 5, "direct", none, none⟩ 7 emptyConfig =
      .error ("Unknown quantum connection type " ++ "direct") := by
  constructor
  · exact ((c4_meet_expansion ⟨"a", "b", 1, 5, MEET_IN_THE_MID, none, none⟩ 7
      emptyConfig).1 rfl).1
  · exact (c4_meet_expansion ⟨"a", "b", 1, 5, "direct", none, none⟩ 7
      emptyConfig).2 (by decide)

/-- C3: one step of quantum-connection processing uses, for its four derived
midpoint classical-channel declarations, exactly the floor of half the
arithmetic mean of the matching (order-independent endpoint pair) classical
delays already present, each contribution being the explicit delay or
`distance / speed-of-light` when absent; and when no matching classical
declaration exists the step fails with the fatal assertion error. -/
theorem c3_derived_delay (sol : ℚ) (cfg : Config) (q : QConnDecl) :
    (matchingDelays sol cfg q.node1 q.node2 = [] →
      qconnection_step sol cfg q = .error "AssertionError") ∧
    (∀ cfg', qconnection_step sol cfg q = .ok cfg' →
      (cfg'.cchannels.drop cfg.cchannels.length).length = 4 ∧
      ∀ cc ∈ cfg'.cchannels.drop cfg.cchannels.length,
        cc.delay = some
          ((⌊(matchingDelays sol cfg q.node1 q.node2).sum /
              ((matchingDelays sol cfg q.node1 q.node2).length : ℚ) / 2⌋ : ℤ) : ℚ)) := by
  constructor
  · intro h
    simp [qconnection_step, h]
  · intro cfg' hok
    rw [qconnection_step] at hok
    by_cases he : (matchingDelays sol cfg q.node1 q.node2).isEmpty
    · simp [he] at hok
    · simp only [he, if_false] at hok
      rw [handle_qconnection] at hok
      by_cases ht : q.type = MEET_IN_THE_MID
      · simp only [ht, if_pos rfl] at hok
        cases hok
        simp [List.drop_left]
      · simp [ht] at hok

/-- Witness for C3: a no-matching-classical config fails the assertion; a
config with one matching classical connection of delay 8 yields four derived
channels. -/
theorem c3_derived_delay_witness :
    qconnection_step 2 emptyConfig ⟨"a", "b", 1, 6, MEET_IN_THE_MID, none, none⟩ =
      .error "AssertionError" ∧
    ((⟨[⟨bsmAutoName "a" "b", "BSMNode", 0, none⟩], [], [⟨"a", "b", none, some 8⟩],
        [⟨some ("QC." ++ "a" ++ "." ++ bsmAutoName "a" "b"), "a", bsmAutoName "a" "b", 3, 1⟩,
         ⟨some ("QC." ++ "b" ++ "." ++ bsmAutoName "a" "b"), "b", bsmAutoName "a" "b", 3, 1⟩],
        [⟨some ("CC." ++ "a" ++ "." ++ bsmAutoName "a" "b"), "a", bsmAutoName "a" "b",
           some 3, some 4⟩,
         ⟨some ("CC." ++ bsmAutoName "a" "b" ++ "." ++ "a"), bsmAutoName "a" "b", "a",
           some 3, some 4⟩,
         ⟨some ("CC." ++ "b" ++ "." ++ bsmAutoName "a" "b"), "b", bsmAutoName "a" "b",
           some 3, some 4⟩,
         ⟨some ("CC." ++ bsmAutoName "a" "b" ++ "." ++ "b"), bsmAutoName "a" "b", "b",
           some 3, some 4⟩]⟩ : Config).cchannels.drop
      (⟨[], [], [⟨"a", "b", none, some 8⟩], [], []⟩ : Config).cchannels.length).length = 4 := by
  constructor
  · exact (c3_derived_delay 2 emptyConfig ⟨"a", "b", 1, 6, MEET_IN_THE_MID, none, none⟩).1
      (by decide)
  · refine ((c3_derived_delay 2 ⟨[], [], [⟨"a", "b", none, some 8⟩], [], []⟩
      ⟨"a", "b", 1, 6, MEET_IN_THE_MID, none, none⟩).2 _ ?_).1
    show qconnection_step 2 _ _ = _
    rw [qconnection_step]
    have hval : matchingDelays 2 ⟨[], [], [⟨"a", "b", none, some 8⟩], [], []⟩ "a" "b" = [8] := by
      simp [matchingDelays, pairMatch, ccContribution]
    rw [hval]
    have hfl : (⌊(List.sum [(8 : ℚ)]) / ((List.length [(8 : ℚ)] : ℕ) : ℚ) / 2⌋ : ℤ) = 4 := by
      norm_num
    simp only [List.isEmpty, hfl]
    rw [handle_qconnection]
    norm_num [MEET_IN_THE_MID, bsmAutoName]
    decide

/-- C10: a matching classical declaration (channel or connection) with neither
an explicit delay nor an explicit distance contributes exactly
`1000 / speed-of-light` to the delay derivation — the fixed default distance,
not an error and not zero. -/
theorem c10_default_distance (sol : ℚ) (cfg : Config) (n1 n2 : String) :
    (∀ cc ∈ cfg.cchannels, pairMatch cc.source cc.dst n1 n2 = true →
      cc.delay = none → cc.distance = none →
      (1000 : ℚ) / sol ∈ matchingDelays sol cfg n1 n2) ∧
    (∀ c ∈ cfg.cconnections, pairMatch c.node1 c.node2 n1 n2 = true →
      c.delay = none → c.distance = none →
      (1000 : ℚ) / sol ∈ matchingDelays sol cfg n1 n2) := by
  have hval : ∀ (dly : Option ℚ) (dst : Option ℤ), dly = none → dst = none →
      ccContribution sol dly dst = (1000 : ℚ) / sol := by
    intro dly dst h1 h2
    subst h1; subst h2
    simp [ccContribution]
  constructor
  · intro cc hmem hpm h1 h2
    refine List.mem_append.mpr (Or.inl ?_)
    refine List.mem_map.mpr ⟨cc, List.mem_filter.mpr ⟨hmem, hpm⟩, ?_⟩
    exact hval cc.delay cc.distance h1 h2
  · intro c hmem hpm h1 h2
    refine List.mem_append.mpr (Or.inr ?_)
    refine List.mem_map.mpr ⟨c, List.mem_filter.mpr ⟨hmem, hpm⟩, ?_⟩
    exact hval c.delay c.distance h1 h2

/-- Witness for C10 at a concrete config with a bare classical channel and a
bare classical connection between the endpoints. -/
theorem c10_default_distance_witness :
    (1000 : ℚ) / 2 ∈
      matchingDelays 2 ⟨[], [], [⟨"b", "a", none, none⟩],
        [], [⟨none, "a", "b", none, none⟩]⟩ "a" "b" := by
  exact (c10_default_distance 2
      ⟨[], [], [⟨"b", "a", none, none⟩], [], [⟨none, "a", "b", none, none⟩]⟩ "a" "b").1
    ⟨none, "a", "b", none, none⟩ (by simp) (by decide) rfl rfl

/-- Quantum-channel installation is the filterMap of per-declaration source
resolution. -/
theorem add_qchannels_eq_filterMap {α : Type} (lookup : String → Option α)
    (decls : List QChanDecl) :
    add_qchannels lookup decls =
      decls.filterMap (fun qc => (lookup qc.source).map fun node =>
        ⟨qc.name.getD ("qc-" ++ qc.source ++ "-" ++ qc.dst),
         qc.attenuation, qc.distance, node, qc.dst⟩) := by
  rw [add_qchannels]
  suffices h : ∀ acc : List (QChanObj α),
      decls.foldl
        (fun acc qc =>
          match lookup qc.source with
          | some node =>
            acc ++ [⟨qc.name.getD ("qc-" ++ qc.source ++ "-" ++ qc.dst),
                     qc.attenuation, qc.distance, node, qc.dst⟩]
          | none => acc)
        acc =
      acc ++ decls.filterMap (fun qc => (lookup qc.source).map fun node =>
        ⟨qc.name.getD ("qc-" ++ qc.source ++ "-" ++ qc.dst),
         qc.attenuation, qc.distance, node, qc.dst⟩) by
    simpa using h []
  induction decls with
  | nil => intro acc; simp
  | cons x xs ih =>
    intro acc
    rw [List.foldl_cons, List.filterMap_cons]
    cases hx : lookup x.source
    · simpa [hx] using ih acc
    · simp only [hx, Option.map_some']
      rw [ih]
      simp

/-- Classical-channel installation is the filterMap of per-declaration source
resolution. -/
theorem add_cchannels_eq_filterMap {α : Type} (lookup : String → Option α)
    (decls : List CChanDecl) :
    add_cchannels lookup decls =
      decls.filterMap (fun cc => make_classical_channel lookup cc.source cc.dst
        (cc.distance.getD (-1)) (cc.delay.getD (-1)) cc.name) := by
  rw [add_cchannels]
  suffices h : ∀ acc : List (CChanObj α),
      decls.foldl
        (fun acc cc =>
          match make_classical_channel lookup cc.source cc.dst
              (cc.distance.getD (-1)) (cc.delay.getD (-1)) cc.name with
          | some obj => acc ++ [obj]
          | none => acc)
        acc =
      acc ++ decls.filterMap (fun cc => make_classical_channel lookup cc.source cc.dst
        (cc.distance.getD (-1)) (cc.delay.getD (-1)) cc.name) by
    simpa using h []
  induction decls with
  | nil => intro acc; simp
  | cons x xs ih =>
    intro acc
    rw [List.foldl_cons, List.filterMap_cons]
    cases hx : make_classical_channel lookup x.source x.dst
        (x.distance.getD (-1)) (x.delay.getD (-1)) x.name
    · simpa [hx] using ih acc
    · simp only [hx]
      rw [ih]
      simp

/-- The length of a filterMap counts the declarations on which `f` fires. -/
theorem length_filterMap_countP {β γ : Type} (f : β → Option γ) (l : List β) :
    (l.filterMap f).length = l.countP (fun x => (f x).isSome) := by
  induction l with
  | nil => simp
  | cons x xs ih =>
    cases hfx : f x <;> simp [List.filterMap_cons, hfx, ih, List.countP_cons]

/-- C8: channel installation resolves each declaration's source via timeline
lookup; an unresolved source skips the declaration silently (no object, no
error, later declarations still processed), and a resolved source creates
exactly one channel object carrying the declared numeric parameters, bound to
the source node object and the destination name (not resolved to an object).
Stated as: installation equals the filterMap of per-declaration resolution,
and the object count equals the count of declarations with resolvable
source. -/
theorem c8_channel_installation {α : Type} (lookup : String → Option α)
    (qdecls : List QChanDecl) (cdecls : List CChanDecl) :
    add_qchannels lookup qdecls =
      qdecls.filterMap (fun qc => (lookup qc.source).map fun node =>
        ⟨qc.name.getD ("qc-" ++ qc.source ++ "-" ++ qc.dst),
         qc.attenuation, qc.distance, node, qc.dst⟩) ∧
    (add_qchannels lookup qdecls).length =
      qdecls.countP (fun qc => (lookup qc.source).isSome) ∧
    add_cchannels lookup cdecls =
      cdecls.filterMap (fun cc => make_classical_channel lookup cc.source cc.dst
        (cc.distance.getD (-1)) (cc.delay.getD (-1)) cc.name) ∧
    (add_cchannels lookup cdecls).length =
      cdecls.countP (fun cc => (lookup cc.source).isSome) := by
  refine ⟨add_qchannels_eq_filterMap lookup qdecls, ?_,
    add_cchannels_eq_filterMap lookup cdecls, ?_⟩
  · rw [add_qchannels_eq_filterMap, length_filterMap_countP]
    refine List.countP_congr ?_
    intro qc _
    cases lookup qc.source <;> simp
  · rw [add_cchannels_eq_filterMap, length_filterMap_countP]
    refine List.countP_congr ?_
    intro cc _
    cases hx : lookup cc.source <;> simp [make_classical_channel, hx]

/-- In a three-segment list where the first property holds nowhere in the last
segment and the second property holds nowhere in the first two segments, any
index satisfying the first property precedes any index satisfying the
second. -/
theorem index_lt_of_segments {β : Type} (A B C : List β) (p q : β → Prop)
    (hpC : ∀ x ∈ C, ¬ p x) (hqA : ∀ x ∈ A, ¬ q x) (hqB : ∀ x ∈ B, ¬ q x) :
    ∀ (i j : ℕ) (hi : i < (A ++ B ++ C).length) (hj : j < (A ++ B ++ C).length),
      p ((A ++ B ++ C).get ⟨i, hi⟩) → q ((A ++ B ++ C).get ⟨j, hj⟩) → i < j := by
  intro i j hi hj hpi hqj
  rw [List.get_eq_getElem] at hpi hqj
  have hiAB : i < (A ++ B).length := by
    by_contra hge
    push_neg at hge
    have hlen : i - (A ++ B).length < C.length := by
      have h2 := hi
      rw [List.length_append] at h2
      omega
    have hEq : (A ++ B ++ C)[i] = C.get ⟨i - (A ++ B).length, hlen⟩ :=
      List.getElem_append_right hge
    have hmem : (A ++ B ++ C)[i] ∈ C := by
      rw [hEq]
      exact List.getElem_mem _
    exact hpC _ hmem hpi
  have hjAB : (A ++ B).length ≤ j := by
    by_contra hlt
    push_neg at hlt
    have hEq : (A ++ B ++ C)[j] = (A ++ B)[j] :=
      List.getElem_append_left hlt
    have hmem : (A ++ B ++ C)[j] ∈ A ++ B := by
      rw [hEq]
      exact List.getElem_mem _
    rcases List.mem_append.mp hmem with hmA | hmB
    · exact hqA _ hmA hqj
    · exact hqB _ hmB hqj
  omega

/-- C6 counterexample: the dual-role factory does *not* put client
declarations first — a midpoint declaration followed by a client declaration
is iterated in the original order (others before clients), not clients-first
as the claim states. -/
theorem c6_counterexample :
    ordered_node_dicts [⟨"m", "BSMNode", 0, none⟩, ⟨"c", CLIENT, 0, none⟩] ≠
      ([⟨"m", "BSMNode", 0, none⟩, ⟨"c", CLIENT, 0, none⟩].filter
          (fun n => n.type = CLIENT) ++
        [⟨"m", "BSMNode", 0, none⟩, ⟨"c", CLIENT, 0, none⟩].filter
          (fun n => ¬(n.type = CLIENT) ∧ ¬(n.type = ORCHESTRATOR)) ++
        [⟨"m", "BSMNode", 0, none⟩, ⟨"c", CLIENT, 0, none⟩].filter
          (fun n => n.type = ORCHESTRATOR)) := by
  decide

/-- C6 (amended): the dual-role factory iterates the declarations of every
non-client non-orchestrator type first, then the client declarations, then
the orchestrator declarations, preserving relative declaration order within
each group and dropping or duplicating nothing (the result is a permutation
of the declarations); in particular every client node is constructed before
any orchestrator node. -/
theorem c6_ordering (l : List NodeDecl) :
    (ordered_node_dicts l).Perm l ∧
    ordered_node_dicts l =
      l.filter (fun n => ¬(n.type = CLIENT) ∧ ¬(n.type = ORCHESTRATOR))
        ++ l.filter (fun n => n.type = CLIENT)
        ++ l.filter (fun n => n.type = ORCHESTRATOR) ∧
    (∀ (i j : ℕ) (hi : i < (ordered_node_dicts l).length)
        (hj : j < (ordered_node_dicts l).length),
      ((ordered_node_dicts l).get ⟨i, hi⟩).type = CLIENT →
      ((ordered_node_dicts l).get ⟨j, hj⟩).type = ORCHESTRATOR → i < j) := by
  have hne : ¬(CLIENT = ORCHESTRATOR) := by decide
  have hne' : ¬(ORCHESTRATOR = CLIENT) := by decide
  refine ⟨?_, rfl, ?_⟩
  · induction l with
    | nil => decide
    | cons x xs ih =>
      by_cases hc : x.type = CLIENT
      · have ho : ¬(x.type = ORCHESTRATOR) := by
          rw [hc]
          decide
        have hshape : ordered_node_dicts (x :: xs) =
            (xs.filter fun n => ¬(n.type = CLIENT) ∧ ¬(n.type = ORCHESTRATOR))
              ++ x :: ((xs.filter fun n => n.type = CLIENT)
                ++ (xs.filter fun n => n.type = ORCHESTRATOR)) := by
          simp [ordered_node_dicts, List.filter_cons, hc, ho, hne]
        rw [hshape]
        refine List.perm_middle.trans (List.Perm.cons x ?_)
        have := ih
        rw [ordered_node_dicts, List.append_assoc] at this
        exact this
      · by_cases ho : x.type = ORCHESTRATOR
        · have hshape : ordered_node_dicts (x :: xs) =
              ((xs.filter fun n => ¬(n.type = CLIENT) ∧ ¬(n.type = ORCHESTRATOR))
                ++ (xs.filter fun n => n.type = CLIENT))
                ++ x :: (xs.filter fun n => n.type = ORCHESTRATOR) := by
            simp [ordered_node_dicts, List.filter_cons, hc, ho, hne', List.append_assoc]
          rw [hshape]
          refine List.perm_middle.trans (List.Perm.cons x ?_)
          have := ih
          rw [ordered_node_dicts] at this
          exact this
        · have hshape : ordered_node_dicts (x :: xs) =
              x :: ((xs.filter fun n => ¬(n.type = CLIENT) ∧ ¬(n.type = ORCHESTRATOR))
                ++ (xs.filter fun n => n.type = CLIENT)
                ++ (xs.filter fun n => n.type = ORCHESTRATOR)) := by
            simp [ordered_node_dicts, List.filter_cons, hc, ho, List.append_assoc]
          rw [hshape]
          refine List.Perm.cons x ?_
          have := ih
          rw [ordered_node_dicts, List.append_assoc] at this
          simpa [List.append_assoc] using this
  · have hpC : ∀ x ∈ l.filter (fun n => n.type = ORCHESTRATOR),
        ¬(x.type = CLIENT) := by
      intro x hx hcx
      have := List.of_mem_filter hx
      simp only [decide_eq_true_eq] at this
      rw [hcx] at this
      exact hne this
    have hqA : ∀ x ∈ l.filter
        (fun n => ¬(n.type = CLIENT) ∧ ¬(n.type = ORCHESTRATOR)),
        ¬(x.type = ORCHESTRATOR) := by
      intro x hx hox
      have := List.of_mem_filter hx
      simp only [decide_eq_true_eq] at this
      exact this.2 hox
    have hqB : ∀ x ∈ l.filter (fun n => n.type = CLIENT),
        ¬(x.type = ORCHESTRATOR) := by
      intro x hx hox
      have := List.of_mem_filter hx
      simp only [decide_eq_true_eq] at this
      rw [hox] at this
      exact hne' this
    exact index_lt_of_segments
      (l.filter fun n => ¬(n.type = CLIENT) ∧ ¬(n.type = ORCHESTRATOR))
      (l.filter fun n => n.type = CLIENT)
      (l.filter fun n => n.type = ORCHESTRATOR)
      (fun n => n.type = CLIENT) (fun n => n.type = ORCHESTRATOR)
      hpC hqA hqB

/-- Witness for C6 ordering at a concrete declaration list (client, midpoint
and orchestrator declarations in mixed order). -/
theorem c6_ordering_witness :
    ordered_node_dicts
        [⟨"c", CLIENT, 0, none⟩, ⟨"m", "BSMNode", 0, none⟩,
         ⟨"o", ORCHESTRATOR, 0, none⟩] =
      [⟨"m", "BSMNode", 0, none⟩, ⟨"c", CLIENT, 0, none⟩,
       ⟨"o", ORCHESTRATOR, 0, none⟩] ∧
    (1 : ℕ) < 2 := by
  constructor
  · decide
  · exact (c6_ordering
      [⟨"c", CLIENT, 0, none⟩, ⟨"m", "BSMNode", 0, none⟩,
       ⟨"o", ORCHESTRATOR, 0, none⟩]).2.2
      1 2 (by decide) (by decide) (by decide) (by decide)

/-- Looking up the key just appended to. -/
theorem lookupA_assocAppend_self (m : List (String × List String)) (k v : String) :
    lookupA (assocAppend m k v) k = some ((lookupA m k).getD [] ++ [v]) := by
  induction m with
  | nil => simp [assocAppend, lookupA]
  | cons e rest ih =>
    obtain ⟨k', vs⟩ := e
    by_cases hk : k' = k
    · subst hk
      simp [assocAppend, lookupA]
    · simp [assocAppend, lookupA, hk, ih]

/-- Appending under one key leaves other keys untouched. -/
theorem lookupA_assocAppend_other (m : List (String × List String))
    (k v k' : String) (h : k' ≠ k) :
    lookupA (assocAppend m k v) k' = lookupA m k' := by
  induction m with
  | nil => simp [assocAppend, lookupA, Ne.symm h]
  | cons e rest ih =>
    obtain ⟨k0, vs⟩ := e
    by_cases hk : k0 = k
    · subst hk
      simp [assocAppend, lookupA, Ne.symm h]
    · simp [assocAppend, lookupA, hk, ih]

/-- The accumulated midpoint map: each key's entry is the source list of the
quantum-channel declarations targeting it, in declaration order (on top of
whatever the accumulator already held). -/
theorem map_bsm_routers_fold (qcs : List QChanDecl) :
    ∀ (m : List (String × List String)) (k : String),
      lookupA (qcs.foldl (fun m qc => assocAppend m qc.dst qc.source) m) k =
        match lookupA m k, (qcs.filter (fun qc => qc.dst = k)).map (·.source) with
        | none, [] => none
        | none, l => some l
        | some vs, l => some (vs ++ l) := by
  induction qcs with
  | nil =>
    intro m k
    cases h : lookupA m k <;> simp [h]
  | cons qc qcs ih =>
    intro m k
    rw [List.foldl_cons]
    by_cases hdst : qc.dst = k
    · rw [ih (assocAppend m qc.dst qc.source) k]
      rw [hdst, lookupA_assocAppend_self]
      cases h : lookupA m k
      · simp only [h, List.filter_cons, hdst, if_pos rfl, Option.getD_none,
          List.nil_append, List.map_cons]
        cases hrest : (qcs.filter (fun qc => decide (qc.dst = k))).map (·.source)
        · simpa using hrest
        · simp [hrest]
      · simp [h, List.filter_cons, hdst]
    · rw [ih (assocAppend m qc.dst qc.source) k]
      rw [lookupA_assocAppend_other m qc.dst qc.source k
        (fun he => hdst he.symm)]
      simp [List.filter_cons, hdst]

/-- A fold over `Except` fails with the fixed message `E` as soon as some
element always fails with `E` and no element can fail with anything else. -/
theorem foldlM_error_exact {β σ : Type} (f : σ → β → Except String σ)
    (E : String) (l : List β) (x : β) (hx : x ∈ l)
    (hfx : ∀ acc, f acc x = .error E)
    (hall : ∀ y ∈ l, ∀ acc e, f acc y = .error e → e = E) :
    ∀ acc, l.foldlM f acc = .error E := by
  induction l with
  | nil => cases hx
  | cons y ys ih =>
    intro acc
    rw [List.foldlM_cons]
    rcases List.mem_cons.mp hx with rfl | hmem
    · rw [hfx acc]
      rfl
    · cases hy : f acc y with
      | error e =>
        rw [hall y (List.mem_cons_self y ys) acc e hy]
        rfl
      | ok acc' =>
        have := ih hmem (fun z hz => hall z (List.mem_cons_of_mem y hz))
        simpa [hy] using this acc'

/-- A fold over `Except` fails (with some message) as soon as some element
always fails. -/
theorem foldlM_error_of_elem {β σ : Type} (f : σ → β → Except String σ)
    (l : List β) (x : β) (hx : x ∈ l)
    (hfx : ∀ acc, ∃ e, f acc x = .error e) :
    ∀ acc, ∃ e, l.foldlM f acc = .error e := by
  induction l with
  | nil => cases hx
  | cons y ys ih =>
    intro acc
    rw [List.foldlM_cons]
    rcases List.mem_cons.mp hx with rfl | hmem
    · obtain ⟨e, he⟩ := hfx acc
      rw [he]
      exact ⟨e, rfl⟩
    · cases hy : f acc y with
      | error e => exact ⟨e, rfl⟩
      | ok acc' =>
        obtain ⟨e, he⟩ := ih hmem acc'
        exact ⟨e, he⟩

/-- The unpack `ValueError` message. -/
theorem add_bsm_node_to_router_error {α : Type} (lookup : String → Option α)
    (m : List (String × List String)) (k : String) (vs : List String)
    (hmem : (k, vs) ∈ m) (hlen : vs.length ≠ 2) :
    add_bsm_node_to_router lookup m =
      .error "ValueError: not exactly two values to unpack" := by
  rw [add_bsm_node_to_router]
  refine foldlM_error_exact _ _ m (k, vs) hmem ?_ ?_ []
  · intro acc
    match vs, hlen with
    | [], _ => rfl
    | [r], _ => rfl
    | r0 :: r1 :: r2 :: rest, _ => rfl
    | [r0, r1], h => exact absurd rfl h
  · intro y _ acc e he
    match y, he with
    | (k', []), he => exact (Except.error.injEq _ _ ▸ he).symm ▸ rfl
    | (k', [r]), he => exact (Except.error.injEq _ _ ▸ he).symm ▸ rfl
    | (k', r0 :: r1 :: r2 :: rest), he => exact (Except.error.injEq _ _ ▸ he).symm ▸ rfl

/-- Entry lookup in the midpoint map, phrased for present destinations. -/
theorem map_bsm_routers_entry (qcs : List QChanDecl) (name : String)
    (hmem : name ∈ qcs.map (·.dst)) :
    lookupA (map_bsm_routers qcs) name =
      some ((qcs.filter (fun qc => qc.dst = name)).map (·.source)) := by
  rw [map_bsm_routers, map_bsm_routers_fold qcs [] name]
  have hne : (qcs.filter (fun qc => qc.dst = name)).map (·.source) ≠ [] := by
    obtain ⟨qc, hqc, hdst⟩ := List.mem_map.mp hmem
    intro hnil
    have : qc ∈ qcs.filter (fun qc => qc.dst = name) :=
      List.mem_filter.mpr ⟨hqc, by simpa using hdst⟩
    have := List.mem_map_of_mem (·.source) this
    rw [hnil] at this
    cases this
  cases h : (qcs.filter (fun qc => qc.dst = name)).map (·.source) with
  | nil => exact absurd h hne
  | cons a l => simp [lookupA]

/-- Membership from association lookup. -/
theorem lookupA_mem {β : Type} (m : List (String × β)) (k : String) (v : β)
    (h : lookupA m k = some v) : (k, v) ∈ m := by
  induction m with
  | nil => cases h
  | cons e rest ih =>
    obtain ⟨k', v'⟩ := e
    by_cases hk : k' = k
    · subst hk
      rw [lookupA] at h
      simp at h
      simp [h]
    · rw [lookupA] at h
      simp [hk] at h
      exact List.mem_cons_of_mem _ (ih h)

/-- Bind of a successful `Except` computation. -/
theorem except_bind_ok {ε α β : Type} (a : α) (f : α → Except ε β) :
    (Except.ok a >>= f : Except ε β) = f a := rfl

/-- Bind of a failed `Except` computation. -/
theorem except_bind_error {ε α β : Type} (e : ε) (f : α → Except ε β) :
    ((Except.error e : Except ε α) >>= f) = .error e := rfl

/-- A failed `Except` computation is not ok. -/
theorem except_isOk_error {ε α : Type} (e : ε) :
    (Except.error e : Except ε α).isOk = false := rfl

/-- C9: the midpoint-to-endpoint map records, for *every* quantum-channel
declaration, its source under its destination name (midpoint or not), and the
wiring step unpacks each entry as exactly two sources; hence whenever some
name is the destination of a number of quantum-channel declarations other
than two, the wiring step — and with it the whole pipeline — fails with the
unpack error instead of completing. -/
theorem c9_bsm_unpack {α : Type} (lookup : String → Option α)
    (qcs : List QChanDecl) (name : String) (registry : List String) (sol : ℚ)
    (cfg cfg1 : Config) :
    (name ∈ qcs.map (·.dst) →
      lookupA (map_bsm_routers qcs) name =
        some ((qcs.filter (fun qc => qc.dst = name)).map (·.source))) ∧
    (name ∈ qcs.map (·.dst) → qcs.countP (fun qc => qc.dst = name) ≠ 2 →
      add_bsm_node_to_router lookup (map_bsm_routers qcs) =
        .error "ValueError: not exactly two values to unpack") ∧
    (add_qconnections sol cfg = .ok cfg1 →
      name ∈ cfg1.qchannels.map (·.dst) →
      cfg1.qchannels.countP (fun qc => qc.dst = name) ≠ 2 →
      (run_bsm_pipeline registry sol cfg).isOk = false) := by
  have hcore : ∀ {β : Type} (qcs' : List QChanDecl) (lk : String → Option β),
      name ∈ qcs'.map (·.dst) → qcs'.countP (fun qc => qc.dst = name) ≠ 2 →
      add_bsm_node_to_router lk (map_bsm_routers qcs') =
        .error "ValueError: not exactly two values to unpack" := by
    intro β qcs' lk hmem hcount
    have hlook := map_bsm_routers_entry qcs' name hmem
    have hlen : ((qcs'.filter (fun qc => qc.dst = name)).map (·.source)).length ≠ 2 := by
      rw [List.length_map, ← List.countP_eq_length_filter]
      exact hcount
    exact add_bsm_node_to_router_error lk _ name _ (lookupA_mem _ _ _ hlook) hlen
  refine ⟨map_bsm_routers_entry qcs name, hcore qcs lookup, ?_⟩
  · intro hexp hmem hcount
    rw [run_bsm_pipeline, hexp, except_bind_ok]
    cases hnodes : add_nodes registry (map_bsm_routers cfg1.qchannels) cfg1.nodes with
    | error e => rw [except_bind_error, except_isOk_error]
    | ok nodes =>
      have hwire := hcore cfg1.qchannels
        (fun s => nodes.find? (fun nd => nd.name == s)) hmem hcount
      rw [except_bind_ok, hwire, except_bind_error, except_isOk_error]

/-- Witness for C9: one explicit quantum channel between two routers gives its
destination exactly one incident declaration, so wiring fails. -/
theorem c9_bsm_unpack_witness :
    lookupA (map_bsm_routers [⟨none, "R1", "R2", 5, 0⟩]) "R2" = some ["R1"] ∧
    add_bsm_node_to_router (fun s => some s)
        (map_bsm_routers [⟨none, "R1", "R2", 5, 0⟩]) =
      .error "ValueError: not exactly two values to unpack" := by
  have h := c9_bsm_unpack (fun s => some s) [⟨none, "R1", "R2", 5, 0⟩] "R2"
    [] 1 emptyConfig emptyConfig
  exact ⟨h.1 (by decide), h.2.1 (by decide) (by decide)⟩

/-- A successful expansion step only appends node declarations. -/
theorem qconnection_step_nodes (sol : ℚ) (cfg : Config) (q : QConnDecl)
    (cfg' : Config) (h : qconnection_step sol cfg q = .ok cfg') :
    ∃ extra, cfg'.nodes = cfg.nodes ++ extra := by
  rw [qconnection_step] at h
  by_cases he : (matchingDelays sol cfg q.node1 q.node2).isEmpty
  · simp [he] at h
  · simp only [he, if_false] at h
    rw [handle_qconnection] at h
    by_cases ht : q.type = MEET_IN_THE_MID
    · simp only [ht, if_pos rfl] at h
      cases h
      exact ⟨_, rfl⟩
    · simp [ht] at h

/-- A successful connection-expansion pass only appends node declarations. -/
theorem add_qconnections_nodes (sol : ℚ) (l : List QConnDecl) :
    ∀ (cfg cfg' : Config), l.foldlM (qconnection_step sol) cfg = .ok cfg' →
      ∃ extra, cfg'.nodes = cfg.nodes ++ extra := by
  induction l with
  | nil =>
    intro cfg cfg' h
    rw [List.foldlM_nil] at h
    cases h
    exact ⟨[], by simp⟩
  | cons q l ih =>
    intro cfg cfg' h
    rw [List.foldlM_cons] at h
    cases hstep : qconnection_step sol cfg q with
    | error e =>
      rw [hstep, except_bind_error] at h
      cases h
    | ok cfg1 =>
      rw [hstep, except_bind_ok] at h
      obtain ⟨e1, he1⟩ := qconnection_step_nodes sol cfg q cfg1 hstep
      obtain ⟨e2, he2⟩ := ih cfg1 cfg' h
      exact ⟨e1 ++ e2, by rw [he2, he1, List.append_assoc]⟩

/-- C5 counterexample: a node type string that is not even a `NodeType` enum
value ("Widget", the spec's own example) aborts construction with the enum's
invalid-value error, which names the type but does *not* instruct
registration — the registration-instructing message is a different string. -/
theorem c5_counterexample :
    run_bsm_pipeline ["QuantumRouter"] 1 ⟨[⟨"w1", "Widget", 0, none⟩], [], [], [], []⟩ =
      .error (invalidTyMsg "Widget") ∧
    invalidTyMsg "Widget" ≠ unregisteredMsg "Widget" := by
  constructor
  · rfl
  · decide

/-- C5 (amended): a node declaration whose type has no entry in the family's
`NODE_TYPES` registry (and is not the reserved midpoint type) makes node
construction fail immediately — with the error naming the type and
instructing registration when the type is a known `NodeType` enum member, and
with the enum's invalid-value error (which names the type but does not
mention registration) otherwise — and the pipeline then never completes, so
no node and no channel objects of the topology exist. -/
theorem c5_unregistered_type (registry : List String)
    (bsmMap : List (String × List String)) (sol : ℚ) (cfg : Config)
    (n : NodeDecl) :
    (n.type ∉ registry → nodeTyOf n.type ≠ .ok .bsmNode →
      create_node registry bsmMap n =
        .error (match nodeTyOf n.type with
          | .ok _ => unregisteredMsg n.type
          | .error e => e)) ∧
    (n ∈ cfg.nodes → n.type ∉ registry → nodeTyOf n.type ≠ .ok .bsmNode →
      (run_bsm_pipeline registry sol cfg).isOk = false) := by
  have hcn : ∀ (bm : List (String × List String)),
      n.type ∉ registry → nodeTyOf n.type ≠ .ok .bsmNode →
      create_node registry bm n =
        .error (match nodeTyOf n.type with
          | .ok _ => unregisteredMsg n.type
          | .error e => e) := by
    intro bm hreg hty
    cases hparse : nodeTyOf n.type with
    | error e => simp [create_node, hparse]
    | ok t =>
      cases t
      case bsmNode => exact absurd hparse hty
      all_goals simp [create_node, hparse, hreg]
  refine ⟨hcn bsmMap, ?_⟩
  intro hmem hreg hty
  rw [run_bsm_pipeline]
  cases hexp : add_qconnections sol cfg with
  | error e => rw [except_bind_error, except_isOk_error]
  | ok cfg1 =>
    rw [except_bind_ok]
    rw [add_qconnections] at hexp
    obtain ⟨extra, hext⟩ := add_qconnections_nodes sol cfg.qconnections cfg cfg1 hexp
    have hmem1 : n ∈ cfg1.nodes := by
      rw [hext]
      exact List.mem_append.mpr (Or.inl hmem)
    obtain ⟨e, he⟩ := foldlM_error_of_elem
      (fun acc nd => (create_node registry (map_bsm_routers cfg1.qchannels) nd).map
        (acc ++ [·]))
      cfg1.nodes n hmem1
      (fun acc => ⟨_, by
        show (create_node registry (map_bsm_routers cfg1.qchannels) n).map
          (acc ++ [·]) = _
        rw [hcn (map_bsm_routers cfg1.qchannels) hreg hty]
        rfl⟩) []
    rw [show add_nodes registry (map_bsm_routers cfg1.qchannels) cfg1.nodes = .error e
      from by rw [add_nodes]; exact he]
    rw [except_bind_error, except_isOk_error]

/-- Witness for C5 (amended): `"QKDNode"` is a valid `NodeType` member absent
from the router family's registry; construction fails with the
registration-instructing message and the pipeline never completes. -/
theorem c5_unregistered_type_witness :
    create_node ["QuantumRouter"] [] ⟨"k1", "QKDNode", 0, none⟩ =
      .error (unregisteredMsg "QKDNode") ∧
    (run_bsm_pipeline ["QuantumRouter"] 1
        ⟨[⟨"k1", "QKDNode", 0, none⟩], [], [], [], []⟩).isOk = false := by
  constructor
  · exact (c5_unregistered_type ["QuantumRouter"] [] 1
      ⟨[⟨"k1", "QKDNode", 0, none⟩], [], [], [], []⟩ ⟨"k1", "QKDNode", 0, none⟩).1
      (by decide) (by decide)
  · exact (c5_unregistered_type ["QuantumRouter"] [] 1
      ⟨[⟨"k1", "QKDNode", 0, none⟩], [], [], [], []⟩ ⟨"k1", "QKDNode", 0, none⟩).2
      (by decide) (by decide) (by decide)

/-- C1: the two dialects resolve to identical topology-level memory
parameters, but the node factory reads only the per-node template
`MemoryArray`, so in the legacy flat dialect (no templates) every client and
orchestrator node is constructed with the hardcoded defaults — here a legacy
config declaring client fidelity `1/2` still constructs its client with
fidelity `9/10`, while the equivalent templated config constructs it with
`1/2`.  This contradicts the claim (and the spec's round-trip property): the
flat values are resolved but never reach the constructors. -/
theorem c1_legacy_flat_values_ignored :
    add_qlan_parameters
        ⟨[⟨"o", ORCHESTRATOR, 0, none⟩, ⟨"c1", CLIENT, 1, none⟩], [],
         some 2, some 1, some "z",
         some (9/10), some 2000, some 1, some (-1), some 500,
         some (1/2), some 2000, some 1, some (-1), some 500⟩ =
      add_qlan_parameters
        ⟨[⟨"o", ORCHESTRATOR, 0, some "orch_hw"⟩, ⟨"c1", CLIENT, 1, some "client_hw"⟩],
         [("orch_hw", ⟨some ⟨some (9/10), some 2000, some 1, some (-1), some 500⟩⟩),
          ("client_hw", ⟨some ⟨some (1/2), some 2000, some 1, some (-1), some 500⟩⟩)],
         some 2, some 1, some "z",
         none, none, none, none, none, none, none, none, none, none⟩ ∧
    qlan_build_nodes
        ⟨[⟨"o", ORCHESTRATOR, 0, none⟩, ⟨"c1", CLIENT, 1, none⟩], [],
         some 2, some 1, some "z",
         some (9/10), some 2000, some 1, some (-1), some 500,
         some (1/2), some 2000, some 1, some (-1), some 500⟩ =
      .ok ([⟨"c1", 1, 9/10, 2000, 1, -1, 500⟩],
           [⟨"o", 0, 2, ["c1"], 9/10, 2000, 1, -1, 500, "z"⟩]) ∧
    qlan_build_nodes
        ⟨[⟨"o", ORCHESTRATOR, 0, some "orch_hw"⟩, ⟨"c1", CLIENT, 1, some "client_hw"⟩],
         [("orch_hw", ⟨some ⟨some (9/10), some 2000, some 1, some (-1), some 500⟩⟩),
          ("client_hw", ⟨some ⟨some (1/2), some 2000, some 1, some (-1), some 500⟩⟩)],
         some 2, some 1, some "z",
         none, none, none, none, none, none, none, none, none, none⟩ =
      .ok ([⟨"c1", 1, 1/2, 2000, 1, -1, 500⟩],
           [⟨"o", 0, 2, ["c1"], 9/10, 2000, 1, -1, 500, "z"⟩]) ∧
    (9/10 : ℚ) ≠ 1/2 := by
  refine ⟨rfl, rfl, rfl, by norm_num⟩

/-- The auto midpoint name determines the leaf for a fixed center. -/
theorem bsmAutoName_inj_right (c l1 l2 : String)
    (h : bsmAutoName c l1 = bsmAutoName c l2) : l1 = l2 := by
  have hd := congrArg String.data h
  simp only [bsmAutoName, String.data_append] at hd
  exact String.ext (List.append_cancel_left (List.append_cancel_right hd))

/-- Association lookup through an append. -/
theorem lookupA_append {β : Type} (m1 m2 : List (String × β)) (k : String) :
    lookupA (m1 ++ m2) k =
      match lookupA m1 k with
      | some v => some v
      | none => lookupA m2 k := by
  induction m1 with
  | nil => simp [lookupA]
  | cons e rest ih =>
    obtain ⟨k0, v0⟩ := e
    by_cases hk : k0 = k <;> simp [lookupA, hk, ih]

/-- Adding a cost for an absent midpoint appends a fresh `[router, d]`
entry. -/
theorem costsAdd_new (m : List (String × List PyV)) (k v : String) (d : ℤ)
    (h : lookupA m k = none) :
    costsAdd m k v d = m ++ [(k, [PyV.s v, PyV.i d])] := by
  induction m with
  | nil => simp [costsAdd]
  | cons e rest ih =>
    obtain ⟨k0, vs0⟩ := e
    by_cases hk : k0 = k
    · rw [lookupA] at h
      simp [hk] at h
    · rw [lookupA] at h
      simp only [hk, if_false] at h
      simp [costsAdd, hk, ih h]

/-- Adding a cost for the midpoint sitting in the final entry prepends the
router and bumps the trailing total. -/
theorem costsAdd_last (m : List (String × List PyV)) (k : String)
    (vs : List PyV) (v : String) (d : ℤ) (h : lookupA m k = none) :
    costsAdd (m ++ [(k, vs)]) k v d = m ++ [(k, PyV.s v :: addLastI vs d)] := by
  induction m with
  | nil => simp [costsAdd]
  | cons e rest ih =>
    obtain ⟨k0, vs0⟩ := e
    by_cases hk : k0 = k
    · rw [lookupA] at h
      simp [hk] at h
    · rw [lookupA] at h
      simp only [hk, if_false] at h
      simp [costsAdd, hk, ih h]

/-- One star connection expands into the midpoint node, the two quantum
channels and the four classical channels. -/
theorem handle_star_step (center : String) (att : ℚ) (dl : ℤ)
    (ld : String × ℤ) (c : Config) :
    handle_qconnection (starConnect center att ld) dl c = .ok { c with
      nodes := c.nodes ++ [⟨bsmAutoName center ld.1, "BSMNode", 0, none⟩],
      qchannels := c.qchannels ++
        [⟨some ("QC." ++ center ++ "." ++ bsmAutoName center ld.1), center,
          bsmAutoName center ld.1, Int.fdiv ld.2 2, att⟩,
         ⟨some ("QC." ++ ld.1 ++ "." ++ bsmAutoName center ld.1), ld.1,
          bsmAutoName center ld.1, Int.fdiv ld.2 2, att⟩],
      cchannels := c.cchannels ++
        [⟨some ("CC." ++ center ++ "." ++ bsmAutoName center ld.1), center,
          bsmAutoName center ld.1, some (Int.fdiv ld.2 2), some (dl : ℚ)⟩,
         ⟨some ("CC." ++ bsmAutoName center ld.1 ++ "." ++ center),
          bsmAutoName center ld.1, center, some (Int.fdiv ld.2 2), some (dl : ℚ)⟩,
         ⟨some ("CC." ++ ld.1 ++ "." ++ bsmAutoName center ld.1), ld.1,
          bsmAutoName center ld.1, some (Int.fdiv ld.2 2), some (dl : ℚ)⟩,
         ⟨some ("CC." ++ bsmAutoName center ld.1 ++ "." ++ ld.1),
          bsmAutoName center ld.1, ld.1, some (Int.fdiv ld.2 2), some (dl : ℚ)⟩] } := by
  rfl

/-- Star expansion succeeds and appends exactly the expected quantum-channel
declarations. -/
theorem star_config_fold (center : String) (att : ℚ) (dl : ℤ)
    (leaves : List (String × ℤ)) :
    ∀ c : Config, ∃ cfg,
      leaves.foldlM (fun c ld => handle_qconnection (starConnect center att ld) dl c)
          c = .ok cfg ∧
      cfg.qchannels = c.qchannels ++ leaves.flatMap (fun ld =>
        [⟨some ("QC." ++ center ++ "." ++ bsmAutoName center ld.1), center,
          bsmAutoName center ld.1, Int.fdiv ld.2 2, att⟩,
         ⟨some ("QC." ++ ld.1 ++ "." ++ bsmAutoName center ld.1), ld.1,
          bsmAutoName center ld.1, Int.fdiv ld.2 2, att⟩]) := by
  induction leaves with
  | nil =>
    intro c
    exact ⟨c, by rw [List.foldlM_nil]; rfl, by simp⟩
  | cons ld rest ih =>
    intro c
    obtain ⟨cfg, hfold, hq⟩ := ih _
    refine ⟨cfg, ?_, ?_⟩
    · rw [List.foldlM_cons, handle_star_step, except_bind_ok]
      exact hfold
    · rw [hq]
      simp [List.flatMap_cons, List.append_assoc]

/-- With an all-resolving lookup, channel installation is a map. -/
theorem add_qchannels_all_resolve (decls : List QChanDecl) :
    add_qchannels (fun s => some s) decls = decls.map (fun qc =>
      ⟨qc.name.getD ("qc-" ++ qc.source ++ "-" ++ qc.dst), qc.attenuation,
       qc.distance, qc.source, qc.dst⟩) := by
  rw [add_qchannels_eq_filterMap]
  induction decls with
  | nil => rfl
  | cons x xs ih =>
    rw [List.filterMap_cons, List.map_cons]
    simpa using ih

/-- Folding the cost collection over the star's channel objects appends the
star cost entries, one fresh key per leaf. -/
theorem buildCosts_star_fold (center : String) (att : ℚ)
    (leaves : List (String × ℤ)) (hnd : (leaves.map Prod.fst).Nodup) :
    ∀ m : List (String × List PyV),
      (∀ ld ∈ leaves, lookupA m (bsmAutoName center ld.1) = none) →
      List.foldl (fun m (qc : QChanObj String) => costsAdd m qc.dst (id qc.src) qc.distance) m
        (leaves.flatMap fun ld =>
          [⟨"QC." ++ center ++ "." ++ bsmAutoName center ld.1, att,
            Int.fdiv ld.2 2, center, bsmAutoName center ld.1⟩,
           ⟨"QC." ++ ld.1 ++ "." ++ bsmAutoName center ld.1, att,
            Int.fdiv ld.2 2, ld.1, bsmAutoName center ld.1⟩]) =
      m ++ starCosts center leaves := by
  induction leaves with
  | nil =>
    intro m _
    simp [starCosts]
  | cons ld rest ih =>
    intro m hm
    rw [List.flatMap_cons]
    have hnone := hm ld (List.mem_cons_self ld rest)
    rw [List.cons_append, List.cons_append, List.nil_append, List.foldl_cons,
      List.foldl_cons]
    rw [show costsAdd m (bsmAutoName center ld.1) (id center) (Int.fdiv ld.2 2) =
        m ++ [(bsmAutoName center ld.1, [PyV.s center, PyV.i (Int.fdiv ld.2 2)])]
      from costsAdd_new m _ _ _ hnone]
    rw [show costsAdd
        (m ++ [(bsmAutoName center ld.1, [PyV.s center, PyV.i (Int.fdiv ld.2 2)])])
        (bsmAutoName center ld.1) (id ld.1) (Int.fdiv ld.2 2) =
        m ++ [(bsmAutoName center ld.1,
          [PyV.s ld.1, PyV.s center, PyV.i (Int.fdiv ld.2 2 + Int.fdiv ld.2 2)])]
      from costsAdd_last m _ _ _ _ hnone]
    have hnd' : (rest.map Prod.fst).Nodup := (List.nodup_cons.mp hnd).2
    have hhead : ld.1 ∉ rest.map Prod.fst := (List.nodup_cons.mp hnd).1
    have hm' : ∀ ld' ∈ rest,
        lookupA (m ++ [(bsmAutoName center ld.1,
          [PyV.s ld.1, PyV.s center, PyV.i (Int.fdiv ld.2 2 + Int.fdiv ld.2 2)])])
          (bsmAutoName center ld'.1) = none := by
      intro ld' hld'
      rw [lookupA_append]
      rw [hm ld' (List.mem_cons_of_mem ld hld')]
      have hne : bsmAutoName center ld.1 ≠ bsmAutoName center ld'.1 := by
        intro he
        exact hhead (bsmAutoName_inj_right center ld.1 ld'.1 he ▸
          List.mem_map_of_mem Prod.fst hld')
      simp [lookupA, hne]
    rw [ih hnd' _ hm']
    simp [starCosts, List.append_assoc]

/-- A node mentioned in no star cost entry collects no assignment. -/
theorem distAssigns_star_skip (center : String) (leaves : List (String × ℤ))
    (name : String) (hname : name ∉ leaves.map Prod.fst) (hc : name ≠ center) :
    ∀ acc, (starCosts center leaves).foldlM (distStep name) acc = .ok acc := by
  induction leaves with
  | nil => intro acc; rfl
  | cons ld rest ih =>
    intro acc
    have hn1 : name ≠ ld.1 := by
      intro he
      exact hname (he ▸ List.mem_map_of_mem Prod.fst (List.mem_cons_self ld rest))
    have hmem : pyMem (PyV.s name)
        [PyV.s ld.1, PyV.s center, PyV.i (Int.fdiv ld.2 2 + Int.fdiv ld.2 2)] = false := by
      simp [pyMem, Ne.symm hn1, Ne.symm hc]
    rw [starCosts, List.map_cons, List.foldlM_cons]
    have hrest : name ∉ rest.map Prod.fst := fun h =>
      hname (List.mem_cons_of_mem _ h)
    have hstep : distStep name acc
        (bsmAutoName center ld.1,
         [PyV.s ld.1, PyV.s center, PyV.i (Int.fdiv ld.2 2 + Int.fdiv ld.2 2)]) =
        .ok acc := by
      rw [distStep]
      simp [hmem]
    rw [hstep, except_bind_ok]
    have := ih hrest acc
    rw [starCosts] at this
    exact this

/-- A leaf of the star collects exactly one assignment: the cost to the
center, the sum of the two half-distances of its own connection. -/
theorem distAssigns_star_leaf (center : String) :
    ∀ (leaves : List (String × ℤ)) (l : String × ℤ), l ∈ leaves →
      (leaves.map Prod.fst).Nodup → center ∉ leaves.map Prod.fst →
      distAssignsNode (starCosts center leaves) l.1 =
        .ok [(PyV.s center, PyV.i (Int.fdiv l.2 2 + Int.fdiv l.2 2))] := by
  intro leaves
  induction leaves with
  | nil =>
    intro l h
    cases h
  | cons ld rest ih =>
    intro l hmem hnd hcent
    have hndh : ld.1 ∉ rest.map Prod.fst := (List.nodup_cons.mp hnd).1
    have hndt : (rest.map Prod.fst).Nodup := (List.nodup_cons.mp hnd).2
    have hcenth : center ≠ ld.1 := by
      intro he
      exact hcent (he ▸ List.mem_map_of_mem Prod.fst (List.mem_cons_self ld rest))
    have hcentt : center ∉ rest.map Prod.fst := fun h =>
      hcent (List.mem_cons_of_mem _ h)
    rcases List.mem_cons.mp hmem with rfl | hl
    · have hlc : l.1 ≠ center := Ne.symm hcenth
      have hstep : distStep l.1 []
          (bsmAutoName center l.1,
           [PyV.s l.1, PyV.s center, PyV.i (Int.fdiv l.2 2 + Int.fdiv l.2 2)]) =
          .ok [(PyV.s center, PyV.i (Int.fdiv l.2 2 + Int.fdiv l.2 2))] := by
        rw [distStep]
        simp [pyMem]
      rw [distAssignsNode, starCosts, List.map_cons, List.foldlM_cons, hstep,
        except_bind_ok]
      have := distAssigns_star_skip center rest l.1 hndh hlc
        [(PyV.s center, PyV.i (Int.fdiv l.2 2 + Int.fdiv l.2 2))]
      rw [starCosts] at this
      exact this
    · have hl1 : l.1 ∈ rest.map Prod.fst := List.mem_map_of_mem Prod.fst hl
      have hne : l.1 ≠ ld.1 := by
        intro he
        exact hndh (he ▸ hl1)
      have hlc : l.1 ≠ center := by
        intro he
        exact hcentt (he ▸ hl1)
      have hstep : distStep l.1 []
          (bsmAutoName center ld.1,
           [PyV.s ld.1, PyV.s center, PyV.i (Int.fdiv ld.2 2 + Int.fdiv ld.2 2)]) =
          .ok [] := by
        rw [distStep]
        simp [pyMem, Ne.symm hne, Ne.symm hlc]
      rw [distAssignsNode, starCosts, List.map_cons, List.foldlM_cons, hstep,
        except_bind_ok]
      have := ih l hl hndt hcentt
      rw [distAssignsNode, starCosts] at this
      exact this

/-- The center of the star collects one assignment per leaf, keyed by the
leaf's name, each equal to the sum of that connection's two half-distances. -/
theorem distAssigns_star_center (center : String) :
    ∀ (leaves : List (String × ℤ)), center ∉ leaves.map Prod.fst →
      ∀ acc, (starCosts center leaves).foldlM (distStep center) acc =
        .ok (acc ++ leaves.map fun ld =>
          (PyV.s ld.1, PyV.i (Int.fdiv ld.2 2 + Int.fdiv ld.2 2))) := by
  intro leaves
  induction leaves with
  | nil =>
    intro _ acc
    simp [starCosts]
    rfl
  | cons ld rest ih =>
    intro hcent acc
    have hcenth : center ≠ ld.1 := by
      intro he
      exact hcent (he ▸ List.mem_map_of_mem Prod.fst (List.mem_cons_self ld rest))
    have hcentt : center ∉ rest.map Prod.fst := fun h =>
      hcent (List.mem_cons_of_mem _ h)
    have hstep : distStep center acc
        (bsmAutoName center ld.1,
         [PyV.s ld.1, PyV.s center, PyV.i (Int.fdiv ld.2 2 + Int.fdiv ld.2 2)]) =
        .ok (acc ++ [(PyV.s ld.1, PyV.i (Int.fdiv ld.2 2 + Int.fdiv ld.2 2))]) := by
      rw [distStep]
      simp [pyMem, hcenth, Ne.symm hcenth]
    rw [starCosts, List.map_cons, List.foldlM_cons, hstep, except_bind_ok]
    have := ih hcentt (acc ++ [(PyV.s ld.1, PyV.i (Int.fdiv ld.2 2 + Int.fdiv ld.2 2))])
    rw [starCosts] at this
    rw [this]
    simp

/-- Assigning a fresh key appends it to the dict. -/
theorem dictUpsert_new (d : List (PyV × PyV)) (k v : PyV)
    (h : ∀ kv ∈ d, kv.1 ≠ k) : dictUpsert d k v = d ++ [(k, v)] := by
  induction d with
  | nil => rfl
  | cons kv rest ih =>
    have hk : kv.1 ≠ k := h kv (List.mem_cons_self kv rest)
    obtain ⟨k0, v0⟩ := kv
    simp only at hk
    rw [dictUpsert]
    simp only [hk, if_false]
    rw [ih (fun kv' h' => h kv' (List.mem_cons_of_mem _ h'))]
    rfl

/-- Applying assignments with pairwise-fresh keys just appends them. -/
theorem applyAssigns_fresh :
    ∀ (xs d : List (PyV × PyV)), (xs.map Prod.fst).Nodup →
      (∀ kv ∈ xs, ∀ kv' ∈ d, kv'.1 ≠ kv.1) →
      xs.foldl (fun d kv => dictUpsert d kv.1 kv.2) d = d ++ xs := by
  intro xs
  induction xs with
  | nil =>
    intro d _ _
    simp
  | cons kv rest ih =>
    intro d hnd hfresh
    rw [List.foldl_cons]
    rw [dictUpsert_new d kv.1 kv.2
      (fun kv' h' => hfresh kv (List.mem_cons_self kv rest) kv' h')]
    rw [ih (d ++ [kv]) (List.nodup_cons.mp hnd).2 ?_]
    · simp
    · intro kv2 h2 kv' h'
      rcases List.mem_append.mp h' with hd | hkv
      · exact hfresh kv2 (List.mem_cons_of_mem _ h2) kv' hd
      · have : kv' = kv := by simpa using hkv
        subst this
        intro he
        exact (List.nodup_cons.mp hnd).1
          (he ▸ List.mem_map_of_mem Prod.fst h2)

/-- The final dict of a fresh-keyed assignment sequence is the sequence
itself. -/
theorem applyAssigns_nodup (xs : List (PyV × PyV))
    (h : (xs.map Prod.fst).Nodup) : applyAssigns xs = xs := by
  rw [applyAssigns]
  rw [applyAssigns_fresh xs [] h (fun kv _ kv' h' => by cases h')]
  rfl

/-- Under the well-shapedness assumption on every cost entry mentioning the
node, the distributed fold succeeds and appends one assignment per mentioning
entry; every two-endpoint entry mentioning the node contributes its
other-endpoint/total pair. -/
theorem distAssigns_wf (name : String) :
    ∀ (costs : List (String × List PyV)),
      (∀ e ∈ costs, pyMem (PyV.s name) e.2 = true →
        ∃ a b t, e.2 = [PyV.s a, PyV.s b, PyV.i t]) →
      ∀ acc, ∃ xs, costs.foldlM (distStep name) acc = .ok (acc ++ xs) ∧
        ∀ bsm r0 r1 tot, (bsm, [PyV.s r0, PyV.s r1, PyV.i tot]) ∈ costs →
          name = r0 ∨ name = r1 →
          ((if r0 ≠ name then PyV.s r0 else PyV.s r1), PyV.i tot) ∈ xs := by
  intro costs
  induction costs with
  | nil =>
    intro _ acc
    refine ⟨[], by rw [List.foldlM_nil]; simp; rfl, ?_⟩
    intro bsm r0 r1 tot h
    cases h
  | cons e rest ih =>
    intro hwf acc
    by_cases hm : pyMem (PyV.s name) e.2 = true
    · obtain ⟨a, b, t, habt⟩ := hwf e (List.mem_cons_self e rest) hm
      have hstep : distStep name acc e =
          .ok (acc ++ [((if a ≠ name then PyV.s a else PyV.s b), PyV.i t)]) := by
        rw [distStep, habt]
        rw [habt] at hm
        by_cases han : a = name
        · subst han
          simp [hm]
        · have : (PyV.s a ≠ PyV.s name) := fun he => han (PyV.s.injEq a name ▸ he)
          simp [hm, han, this]
      obtain ⟨xs', hfold, hmemb⟩ := ih
        (fun e' h' => hwf e' (List.mem_cons_of_mem _ h'))
        (acc ++ [((if a ≠ name then PyV.s a else PyV.s b), PyV.i t)])
      refine ⟨((if a ≠ name then PyV.s a else PyV.s b), PyV.i t) :: xs', ?_, ?_⟩
      · rw [List.foldlM_cons, hstep, except_bind_ok, hfold]
        simp
      · intro bsm r0 r1 tot hin hname
        rcases List.mem_cons.mp hin with he | hrest
        · have h2 : e.2 = [PyV.s r0, PyV.s r1, PyV.i tot] := by rw [← he]
          rw [habt] at h2
          have ha : a = r0 := by
            have := congrArg (fun l => l.get? 0) h2
            simpa using this
          have hb : b = r1 := by
            have := congrArg (fun l => l.get? 1) h2
            simpa using this
          have ht : t = tot := by
            have := congrArg (fun l => l.get? 2) h2
            simpa using this
          subst ha; subst hb; subst ht
          exact List.mem_cons_self _ _
        · exact List.mem_cons_of_mem _ (hmemb bsm r0 r1 tot hrest hname)
    · have hstep : distStep name acc e = .ok acc := by
        rw [distStep]
        simp only [Bool.not_eq_true] at hm
        simp [hm]
      obtain ⟨xs', hfold, hmemb⟩ := ih
        (fun e' h' => hwf e' (List.mem_cons_of_mem _ h')) acc
      refine ⟨xs', ?_, ?_⟩
      · rw [List.foldlM_cons, hstep, except_bind_ok, hfold]
      · intro bsm r0 r1 tot hin hname
        rcases List.mem_cons.mp hin with he | hrest
        · exfalso
          have h2 : e.2 = [PyV.s r0, PyV.s r1, PyV.i tot] := by rw [← he]
          rw [h2] at hm
          rcases hname with rfl | rfl <;> simp [pyMem] at hm
        · exact hmemb bsm r0 r1 tot hrest hname

/-- C7: under the distributed discipline, (i) for every node and every
midpoint whose recorded cost entry has exactly two endpoints and includes the
node's name, the seeding loop succeeds (given every entry mentioning the node
is well-shaped) and records a link cost keyed by the *other* endpoint equal
to the entry's total — the sum of the two endpoint-to-midpoint quantum-channel
distances; and (ii) for a star of one center and distinctly-named leaves
joined by meet-in-the-middle connections, the expanded channels produce
exactly the per-leaf cost entries, each leaf records exactly one link cost —
to the center, equal to the sum of the two half-distances of its connection —
and the center's final link-cost dict has exactly one entry per leaf. -/
theorem c7_distributed_link_costs (costs : List (String × List PyV))
    (name : String) (center : String) (att : ℚ) (dl : ℤ)
    (leaves : List (String × ℤ)) :
    ((∀ e ∈ costs, pyMem (PyV.s name) e.2 = true →
        ∃ a b t, e.2 = [PyV.s a, PyV.s b, PyV.i t]) →
      ∀ bsm r0 r1 tot, (bsm, [PyV.s r0, PyV.s r1, PyV.i tot]) ∈ costs →
        name = r0 ∨ name = r1 →
        (distAssignsNode costs name).isOk = true ∧
        ∀ xs, distAssignsNode costs name = .ok xs →
          ((if r0 ≠ name then PyV.s r0 else PyV.s r1), PyV.i tot) ∈ xs) ∧
    ((leaves.map Prod.fst).Nodup → center ∉ leaves.map Prod.fst →
      ∃ cfg, star_config center att dl leaves = .ok cfg ∧
        buildCosts id (add_qchannels (fun s => some s) cfg.qchannels) =
          starCosts center leaves ∧
        (∀ ld ∈ leaves,
          distAssignsNode (starCosts center leaves) ld.1 =
            .ok [(PyV.s center, PyV.i (Int.fdiv ld.2 2 + Int.fdiv ld.2 2))] ∧
          applyAssigns [(PyV.s center, PyV.i (Int.fdiv ld.2 2 + Int.fdiv ld.2 2))] =
            [(PyV.s center, PyV.i (Int.fdiv ld.2 2 + Int.fdiv ld.2 2))]) ∧
        distAssignsNode (starCosts center leaves) center =
          .ok (leaves.map fun ld =>
            (PyV.s ld.1, PyV.i (Int.fdiv ld.2 2 + Int.fdiv ld.2 2))) ∧
        (applyAssigns (leaves.map fun ld =>
            (PyV.s ld.1, PyV.i (Int.fdiv ld.2 2 + Int.fdiv ld.2 2)))).length =
          leaves.length) := by
  constructor
  · intro hwf bsm r0 r1 tot hin hname
    obtain ⟨xs, hfold, hmemb⟩ := distAssigns_wf name costs hwf []
    have heq : distAssignsNode costs name = .ok xs := by
      rw [distAssignsNode, hfold]
      rfl
    refine ⟨by rw [heq]; rfl, ?_⟩
    intro xs' hxs'
    have : xs' = xs := by
      rw [heq] at hxs'
      exact (Except.ok.injEq _ _ ▸ hxs'.symm)
    subst this
    exact hmemb bsm r0 r1 tot hin hname
  · intro hnd hcent
    obtain ⟨cfg, hfold, hq⟩ := star_config_fold center att dl leaves emptyConfig
    have hq' : cfg.qchannels = leaves.flatMap (fun ld =>
        [⟨some ("QC." ++ center ++ "." ++ bsmAutoName center ld.1), center,
          bsmAutoName center ld.1, Int.fdiv ld.2 2, att⟩,
         ⟨some ("QC." ++ ld.1 ++ "." ++ bsmAutoName center ld.1), ld.1,
          bsmAutoName center ld.1, Int.fdiv ld.2 2, att⟩]) := by
      rw [hq]
      rfl
    refine ⟨cfg, ?_, ?_, ?_, ?_, ?_⟩
    · rw [star_config]
      exact hfold
    · rw [hq', add_qchannels_all_resolve, buildCosts, List.map_flatMap]
      have hb := buildCosts_star_fold center att leaves hnd []
        (fun ld _ => rfl)
      have hfn : (fun (ld : String × ℤ) =>
          List.map (fun (qc : QChanDecl) =>
            (⟨qc.name.getD ("qc-" ++ qc.source ++ "-" ++ qc.dst), qc.attenuation,
              qc.distance, qc.source, qc.dst⟩ : QChanObj String))
            [⟨some ("QC." ++ center ++ "." ++ bsmAutoName center ld.1), center,
              bsmAutoName center ld.1, Int.fdiv ld.2 2, att⟩,
             ⟨some ("QC." ++ ld.1 ++ "." ++ bsmAutoName center ld.1), ld.1,
              bsmAutoName center ld.1, Int.fdiv ld.2 2, att⟩]) =
          (fun (ld : String × ℤ) =>
            [(⟨"QC." ++ center ++ "." ++ bsmAutoName center ld.1, att,
               Int.fdiv ld.2 2, center, bsmAutoName center ld.1⟩ : QChanObj String),
             ⟨"QC." ++ ld.1 ++ "." ++ bsmAutoName center ld.1, att,
               Int.fdiv ld.2 2, ld.1, bsmAutoName center ld.1⟩]) := by
        funext ld
        rfl
      rw [hfn]
      rw [hb]
      rfl
    · intro ld hld
      exact ⟨distAssigns_star_leaf center leaves ld hld hnd hcent, rfl⟩
    · have := distAssigns_star_center center leaves hcent []
      rw [distAssignsNode, this]
      rfl
    · have hkeys : ((leaves.map fun ld =>
          (PyV.s ld.1, PyV.i (Int.fdiv ld.2 2 + Int.fdiv ld.2 2))).map Prod.fst).Nodup := by
        rw [List.map_map]
        have : (Prod.fst ∘ fun (ld : String × ℤ) =>
            (PyV.s ld.1, PyV.i (Int.fdiv ld.2 2 + Int.fdiv ld.2 2))) =
            (PyV.s ∘ Prod.fst) := by
          funext ld
          rfl
        rw [this, ← List.map_map]
        exact List.Nodup.map (fun x y h => by injection h) hnd
      rw [applyAssigns_nodup _ hkeys, List.length_map]

/-- Witness for C7 at a two-leaf star with center `O`. -/
theorem c7_distributed_link_costs_witness :
    distAssignsNode (starCosts "O" [("L1", 10), ("L2", 14)]) "L1" =
      .ok [(PyV.s "O", PyV.i (Int.fdiv 10 2 + Int.fdiv 10 2))] ∧
    distAssignsNode (starCosts "O" [("L1", 10), ("L2", 14)]) "O" =
      .ok [(PyV.s "L1", PyV.i (Int.fdiv 10 2 + Int.fdiv 10 2)),
           (PyV.s "L2", PyV.i (Int.fdiv 14 2 + Int.fdiv 14 2))] ∧
    (applyAssigns [(PyV.s "L1", PyV.i (Int.fdiv 10 2 + Int.fdiv 10 2)),
                   (PyV.s "L2", PyV.i (Int.fdiv 14 2 + Int.fdiv 14 2))]).length = 2 ∧
    (PyV.s "B", PyV.i 7) ∈ [(PyV.s "B", PyV.i 7)] := by
  obtain ⟨-, h2⟩ := c7_distributed_link_costs
    [("M", [PyV.s "A", PyV.s "B", PyV.i 7])] "A" "O" 0 0 [("L1", 10), ("L2", 14)]
  obtain ⟨cfg, -, -, hleaf, hcenter, hlen⟩ := h2 (by decide) (by decide)
  obtain ⟨h1gen, -⟩ := c7_distributed_link_costs
    [("M", [PyV.s "A", PyV.s "B", PyV.i 7])] "A" "O" 0 0 [("L1", 10), ("L2", 14)]
  have hwf : ∀ e ∈ [("M", [PyV.s "A", PyV.s "B", PyV.i 7])],
      pyMem (PyV.s "A") e.2 = true →
      ∃ a b t, e.2 = [PyV.s a, PyV.s b, PyV.i t] := by
    intro e he _
    have he' : e = ("M", [PyV.s "A", PyV.s "B", PyV.i 7]) := by simpa using he
    subst he'
    exact ⟨"A", "B", 7, rfl⟩
  have hgen := h1gen hwf "M" "A" "B" 7 (by decide) (Or.inl rfl)
  have hmem := hgen.2 [(PyV.s "B", PyV.i 7)] (by decide)
  exact ⟨(hleaf ("L1", 10) (by decide)).1, hcenter, hlen,
    by simp only [if_neg (by decide : ¬("A" : String) ≠ "A")] at hmem; exact hmem⟩

/-- Edge weights are symmetric in the endpoints. -/
theorem edgeWeight_symm (es : List (String × String × ℤ)) (u v : String) :
    edgeWeight es u v = edgeWeight es v u := by
  rw [edgeWeight, edgeWeight]
  rw [List.filter_congr (fun e _ => decide_eq_decide.mpr or_comm)]

/-- Adjacency is symmetric. -/
theorem adjacent_symm (es : List (String × String × ℤ)) (u v : String)
    (h : adjacent es u v) : adjacent es v u := by
  rw [adjacent, ← edgeWeight_symm]
  exact h

/-- Weight of a two-step-or-longer sequence. -/
theorem pathWeight_cons₂ (es : List (String × String × ℤ)) (a b : String)
    (t : List String) :
    pathWeight es (a :: b :: t) =
      (edgeWeight es a b).getD 0 + pathWeight es (b :: t) := rfl

/-- Splitting off the final edge of a vertex sequence. -/
theorem pathWeight_append_pair (es : List (String × String × ℤ)) :
    ∀ (l : List String) (a b : String),
      pathWeight es (l ++ [a, b]) =
        pathWeight es (l ++ [a]) + (edgeWeight es a b).getD 0 := by
  intro l
  induction l with
  | nil =>
    intro a b
    show pathWeight es [a, b] = pathWeight es [a] + _
    rw [pathWeight_cons₂]
    show (edgeWeight es a b).getD 0 + 0 = 0 + (edgeWeight es a b).getD 0
    omega
  | cons x l ih =>
    intro a b
    cases l with
    | nil =>
      show pathWeight es [x, a, b] = pathWeight es [x, a] + _
      rw [pathWeight_cons₂, pathWeight_cons₂, pathWeight_cons₂]
      show _ + (_ + (0 : ℤ)) = _ + (0 : ℤ) + _
      omega
    | cons y l' =>
      show pathWeight es (x :: ((y :: l') ++ [a, b])) =
        pathWeight es (x :: ((y :: l') ++ [a])) + _
      rw [show (y :: l') ++ [a, b] = y :: (l' ++ [a, b]) from rfl,
        show (y :: l') ++ [a] = y :: (l' ++ [a]) from rfl]
      rw [pathWeight_cons₂, pathWeight_cons₂]
      rw [show y :: (l' ++ [a, b]) = (y :: l') ++ [a, b] from rfl,
        show y :: (l' ++ [a]) = (y :: l') ++ [a] from rfl]
      rw [ih a b]
      omega

/-- Reversing a vertex sequence preserves its total weight (edges are
undirected). -/
theorem pathWeight_reverse (es : List (String × String × ℤ)) :
    ∀ p : List String, pathWeight es p.reverse = pathWeight es p := by
  intro p
  induction p with
  | nil => rfl
  | cons a tail ih =>
    cases tail with
    | nil => rfl
    | cons b rest =>
      rw [List.reverse_cons]
      rw [show (b :: rest).reverse ++ [a] = rest.reverse ++ [b, a] from by
        rw [List.reverse_cons, List.append_assoc]; rfl]
      rw [pathWeight_append_pair es rest.reverse b a]
      rw [show rest.reverse ++ [b] = (b :: rest).reverse from
        (List.reverse_cons b rest).symm]
      rw [ih]
      rw [pathWeight_cons₂]
      rw [edgeWeight_symm es b a]
      omega

/-- Reversing a path swaps its endpoints. -/
theorem isPath_reverse (es : List (String × String × ℤ)) (u v : String)
    (p : List String) (h : IsPath es u v p) : IsPath es v u p.reverse := by
  obtain ⟨hh, hl, hc, hn⟩ := h
  refine ⟨?_, ?_, ?_, ?_⟩
  · rw [List.head?_reverse]
    exact hl
  · rw [List.getLast?_reverse]
    exact hh
  · rw [List.chain'_reverse]
    exact hc.imp fun a b hab => adjacent_symm es a b hab
  · rw [List.nodup_reverse]
    exact hn

/-- Reversing a shortest path yields a shortest path in the other
direction. -/
theorem isShortestPath_reverse (es : List (String × String × ℤ)) (u v : String)
    (p : List String) (h : IsShortestPath es u v p) :
    IsShortestPath es v u p.reverse := by
  obtain ⟨hp, hmin⟩ := h
  refine ⟨isPath_reverse es u v p hp, ?_⟩
  intro q hq
  rw [pathWeight_reverse]
  have := hmin q.reverse (isPath_reverse es v u q hq)
  rw [pathWeight_reverse] at this
  exact this

/-- Reachability is symmetric. -/
theorem reachable_symm (es : List (String × String × ℤ)) (u v : String)
    (h : Reachable es u v) : Reachable es v u := by
  obtain ⟨p, hp⟩ := h
  exact ⟨p.reverse, isPath_reverse es u v p hp⟩

/-- Looking up the key just updated by a cost addition. -/
theorem costsAdd_lookup_self (m : List (String × List PyV)) (k v : String)
    (d : ℤ) :
    lookupA (costsAdd m k v d) k =
      match lookupA m k with
      | none => some [PyV.s v, PyV.i d]
      | some vs => some (PyV.s v :: addLastI vs d) := by
  induction m with
  | nil => simp [costsAdd, lookupA]
  | cons e rest ih =>
    obtain ⟨k0, vs0⟩ := e
    by_cases hk : k0 = k
    · subst hk
      simp [costsAdd, lookupA]
    · simp [costsAdd, lookupA, hk, ih]

/-- A cost addition leaves other keys untouched. -/
theorem costsAdd_lookup_other (m : List (String × List PyV)) (k v : String)
    (d : ℤ) (k' : String) (h : k' ≠ k) :
    lookupA (costsAdd m k v d) k' = lookupA m k' := by
  induction m with
  | nil => simp [costsAdd, lookupA, Ne.symm h]
  | cons e rest ih =>
    obtain ⟨k0, vs0⟩ := e
    by_cases hk : k0 = k
    · subst hk
      simp [costsAdd, lookupA, Ne.symm h]
    · simp [costsAdd, lookupA, hk, ih]

/-- The cost dict's entry for a midpoint is determined by the subsequence of
channels targeting it. -/
theorem buildCosts_fold {α : Type} (nameOf : α → String)
    (qcs : List (QChanObj α)) :
    ∀ (m : List (String × List PyV)) (k : String),
      lookupA
        (qcs.foldl (fun m qc => costsAdd m qc.dst (nameOf qc.src) qc.distance) m)
        k =
      costsValue nameOf (lookupA m k) (qcs.filter (fun qc => qc.dst = k)) := by
  induction qcs with
  | nil =>
    intro m k
    rfl
  | cons qc qcs ih =>
    intro m k
    rw [List.foldl_cons]
    by_cases hdst : qc.dst = k
    · rw [ih (costsAdd m qc.dst (nameOf qc.src) qc.distance) k]
      rw [hdst, costsAdd_lookup_self]
      rw [List.filter_cons_of_pos (by simpa using hdst)]
      rw [costsValue, List.foldl_cons]
    · rw [ih (costsAdd m qc.dst (nameOf qc.src) qc.distance) k]
      rw [costsAdd_lookup_other m qc.dst (nameOf qc.src) qc.distance k
        (fun he => hdst he.symm)]
      rw [List.filter_cons_of_neg (by simpa using hdst)]

/-- Every well-parsed cost entry contributes its edge to the graph. -/
theorem buildEdges_mem :
    ∀ (cs : List (String × List PyV)) (es : List (String × String × ℤ)),
      buildEdges cs = .ok es →
      ∀ (k : String) (vs : List PyV) (e : String × String × ℤ),
        (k, vs) ∈ cs → parseEdge vs = .ok e → e ∈ es := by
  intro cs
  induction cs with
  | nil =>
    intro es _ k vs e hmem
    cases hmem
  | cons c rest ih =>
    intro es hok k vs e hmem hparse
    rw [buildEdges, List.mapM_cons] at hok
    cases hc : parseEdge c.2 with
    | error err =>
      rw [hc] at hok
      cases hok
    | ok e0 =>
      rw [hc] at hok
      cases hrest : rest.mapM (fun e => parseEdge e.2) with
      | error err =>
        rw [hrest] at hok
        cases hok
      | ok es' =>
        rw [hrest] at hok
        have hes : es = e0 :: es' := by
          have : (pure (e0 :: es') : Except String _) = .ok es := hok
          exact (Except.ok.injEq _ _ ▸ this).symm ▸ rfl
        subst hes
        rcases List.mem_cons.mp hmem with he | hmemr
        · have : c.2 = vs := by rw [← he]
          rw [this, hparse] at hc
          have : e0 = e := (Except.ok.injEq _ _ ▸ hc.symm)
          exact this ▸ List.mem_cons_self _ _
        · exact List.mem_cons_of_mem _ (ih es' (by rw [buildEdges]; exact hrest) k vs e hmemr hparse)

/-- Membership characterization of the static forwarding rules. -/
theorem staticRules_mem (sp : String → String → Option (List String))
    (nodeIter gNodes : List String) (src dst hop : String) :
    (src, dst, hop) ∈ staticRules sp nodeIter gNodes ↔
      src ∈ nodeIter ∧ dst ∈ gNodes ∧ src ≠ dst ∧
      ∃ p, spQuery sp src dst = some p ∧ hop = p.getD 1 "" := by
  rw [staticRules]
  rw [List.mem_flatMap]
  constructor
  · rintro ⟨src', hsrc', hmem⟩
    rw [List.mem_filterMap] at hmem
    obtain ⟨dst', hdst', hf⟩ := hmem
    by_cases hne : src' = dst'
    · simp [hne] at hf
    · rw [if_neg hne] at hf
      cases hq : spQuery sp src' dst' with
      | none =>
        rw [hq] at hf
        cases hf
      | some p =>
        rw [hq] at hf
        have h3 : src' = src ∧ dst' = dst ∧ p.getD 1 "" = hop := by
          have := Option.some.injEq _ _ ▸ hf
          refine ⟨congrArg (fun t => t.1) this, ?_, ?_⟩
          · exact congrArg (fun t => t.2.1) this
          · exact congrArg (fun t => t.2.2) this
        obtain ⟨rfl, rfl, hhop⟩ := h3
        exact ⟨hsrc', hdst', hne, p, hq, hhop.symm⟩
  · rintro ⟨hsrc, hdst, hne, p, hq, hhop⟩
    refine ⟨src, hsrc, ?_⟩
    rw [List.mem_filterMap]
    refine ⟨dst, hdst, ?_⟩
    rw [if_neg hne, hq, hhop]

/-- C2: under the centralized (static) discipline, with the external graph
library's `dijkstra_path` modelled as any oracle `sp` meeting its contract on
the built cost graph (a returned path is a minimal-weight simple path, and
`none` exactly when no path exists): (a) every midpoint with exactly two
recorded incident quantum channels yields one cost entry `[r2, r1, d1+d2]`
and one graph edge weighted by the sum of the two endpoint-to-midpoint
distances; (b) every ordered pair of distinct nodes (source iterated from the
non-midpoint node objects, destination from the graph's nodes) that is
reachable receives a forwarding rule whose next hop is the second node of a
shortest path from source to destination (the canonical-direction query being
reversed for the other direction); (c) unreachable ordered pairs receive no
rule — and rule generation is a total function, so no error is raised. -/
theorem c2_static_routing {α : Type} (nameOf : α → String)
    (qcs : List (QChanObj α)) (sp : String → String → Option (List String))
    (base nodeIter : List String) (es : List (String × String × ℤ))
    (hedges : buildEdges (buildCosts nameOf qcs) = .ok es)
    (hsp : ∀ u v, u ≠ v →
      (∀ p, sp u v = some p → IsShortestPath es u v p) ∧
      (sp u v = none ↔ ¬ Reachable es u v)) :
    (∀ (k : String) (q1 q2 : QChanObj α),
      qcs.filter (fun qc => qc.dst = k) = [q1, q2] →
      lookupA (buildCosts nameOf qcs) k =
        some [PyV.s (nameOf q2.src), PyV.s (nameOf q1.src),
              PyV.i (q1.distance + q2.distance)] ∧
      (nameOf q2.src, nameOf q1.src, q1.distance + q2.distance) ∈ es) ∧
    (∀ src ∈ nodeIter, ∀ dst ∈ graph_nodes_with_edges base es, src ≠ dst →
      Reachable es src dst →
      ∃ p, IsShortestPath es src dst p ∧
        (src, dst, p.getD 1 "") ∈
          staticRules sp nodeIter (graph_nodes_with_edges base es)) ∧
    (∀ src dst hop, ¬ Reachable es src dst →
      (src, dst, hop) ∉ staticRules sp nodeIter (graph_nodes_with_edges base es)) := by
  refine ⟨?_, ?_, ?_⟩
  · intro k q1 q2 hfilter
    have h1 : lookupA (buildCosts nameOf qcs) k =
        some [PyV.s (nameOf q2.src), PyV.s (nameOf q1.src),
              PyV.i (q1.distance + q2.distance)] := by
      rw [buildCosts, buildCosts_fold nameOf qcs [] k, hfilter]
      rfl
    refine ⟨h1, ?_⟩
    exact buildEdges_mem (buildCosts nameOf qcs) es hedges k _ _
      (lookupA_mem _ _ _ h1) rfl
  · intro src hsrc dst hdst hne hreach
    by_cases hord : pyStrLt src.data dst.data = true
    · cases hq : sp src dst with
      | none => exact absurd (((hsp src dst hne).2.mp hq) ) (not_not.mpr hreach)
      | some p =>
        have hshort := (hsp src dst hne).1 p hq
        refine ⟨p, hshort, ?_⟩
        rw [staticRules_mem]
        exact ⟨hsrc, hdst, hne, p, by rw [spQuery, if_pos hord, hq], rfl⟩
    · have hne' : dst ≠ src := Ne.symm hne
      cases hq : sp dst src with
      | none =>
        exact absurd ((hsp dst src hne').2.mp hq)
          (not_not.mpr (reachable_symm es src dst hreach))
      | some q =>
        have hshort := (hsp dst src hne').1 q hq
        refine ⟨q.reverse, isShortestPath_reverse es dst src q hshort, ?_⟩
        rw [staticRules_mem]
        refine ⟨hsrc, hdst, hne, q.reverse, ?_, rfl⟩
        rw [spQuery, if_neg hord, hq]
        rfl
  · intro src dst hop hnreach hmem
    rw [staticRules_mem] at hmem
    obtain ⟨hsrc, hdst, hne, p, hq, hhop⟩ := hmem
    rw [spQuery] at hq
    by_cases hord : pyStrLt src.data dst.data = true
    · rw [if_pos hord] at hq
      exact hnreach ⟨p, ((hsp src dst hne).1 p hq).1⟩
    · rw [if_neg hord] at hq
      cases hq2 : sp dst src with
      | none =>
        rw [hq2] at hq
        cases hq
      | some q =>
        rw [hq2] at hq
        have := ((hsp dst src (Ne.symm hne)).1 q hq2).1
        exact hnreach (reachable_symm es dst src ⟨q, this⟩)

/-- A chain ending at a vertex different from its head enters it through some
edge. -/
theorem chain'_last_adjacent (es : List (String × String × ℤ)) :
    ∀ (p : List String) (a v : String), (a :: p).getLast? = some v → a ≠ v →
      List.Chain' (adjacent es) (a :: p) → ∃ y, adjacent es y v := by
  intro p
  induction p with
  | nil =>
    intro a v hl hne _
    rw [List.getLast?_singleton] at hl
    exact absurd (Option.some.injEq _ _ ▸ hl) hne
  | cons b t ih =>
    intro a v hl hne hc
    have hc' := List.chain'_cons.mp hc
    by_cases hbv : b = v
    · exact ⟨a, hbv ▸ hc'.1⟩
    · refine ih b v ?_ hbv hc'.2
      rw [← hl]
      exact List.getLast?_cons_cons.symm

/-- A path between distinct endpoints leaves its source and enters its
destination through edges. -/
theorem isPath_ends_adjacent (es : List (String × String × ℤ))
    (u v : String) (p : List String) (h : IsPath es u v p) (hne : u ≠ v) :
    (∃ x, adjacent es u x) ∧ (∃ y, adjacent es y v) := by
  obtain ⟨hh, hl, hc, _⟩ := h
  cases p with
  | nil => cases hh
  | cons a t =>
    have ha : a = u := by
      rw [List.head?_cons] at hh
      exact Option.some.injEq _ _ ▸ hh
    subst ha
    cases t with
    | nil =>
      rw [List.getLast?_singleton] at hl
      exact absurd (Option.some.injEq _ _ ▸ hl) hne
    | cons b t' =>
      refine ⟨⟨b, (List.chain'_cons.mp hc).1⟩, ?_⟩
      exact chain'_last_adjacent es (b :: t') a v hl hne hc

/-- In the witness graph the only adjacent pairs are `{A, B}`. -/
theorem witness_adj_char (x y : String) (h : adjacent witnessEdges x y) :
    (x = "B" ∧ y = "A") ∨ (x = "A" ∧ y = "B") := by
  rw [adjacent, edgeWeight] at h
  by_cases hp : (("B" = x ∧ "A" = y) ∨ ("B" = y ∧ "A" = x))
  · rcases hp with ⟨h1, h2⟩ | ⟨h1, h2⟩
    · exact Or.inl ⟨h1.symm, h2.symm⟩
    · exact Or.inr ⟨h2.symm, h1.symm⟩
  · exfalso
    rw [show witnessEdges.filter (fun e =>
        decide ((e.1 = x ∧ e.2.1 = y) ∨ (e.1 = y ∧ e.2.1 = x))) = [] from by
      rw [witnessEdges]
      rw [List.filter_cons_of_neg (by simpa using hp)]
      rfl] at h
    cases h

/-- Every witness-graph edge weight read is `0` (absent) or `7`. -/
theorem witness_weight_cases (a b : String) :
    (edgeWeight witnessEdges a b).getD 0 = 0 ∨
      (edgeWeight witnessEdges a b).getD 0 = 7 := by
  rw [edgeWeight, witnessEdges]
  by_cases hp : ((("B" : String) = a ∧ ("A" : String) = b) ∨
      (("B" : String) = b ∧ ("A" : String) = a))
  · right
    rw [List.filter_cons_of_pos (by simpa using hp)]
    rfl
  · left
    rw [List.filter_cons_of_neg (by simpa using hp)]
    rfl

/-- Witness-graph path weights are nonnegative. -/
theorem witness_weight_nonneg : ∀ p, 0 ≤ pathWeight witnessEdges p := by
  intro p
  induction p with
  | nil => exact le_refl 0
  | cons a t ih =>
    cases t with
    | nil => exact le_refl 0
    | cons b t' =>
      rw [pathWeight_cons₂]
      have h1 := witness_weight_cases a b
      have h2 : 0 ≤ pathWeight witnessEdges (b :: t') := ih
      rcases h1 with h | h <;> omega

/-- The one-edge path is a path from `A` to `B` in the witness graph. -/
theorem witness_pathAB : IsPath witnessEdges "A" "B" ["A", "B"] := by
  refine ⟨rfl, rfl, ?_, by decide⟩
  exact List.chain'_cons.mpr ⟨by rw [adjacent]; decide, List.chain'_singleton "B"⟩

/-- Any path from `A` to `B` in the witness graph weighs at least `7`. -/
theorem witness_minAB (q : List String) (hq : IsPath witnessEdges "A" "B" q) :
    (7 : ℤ) ≤ pathWeight witnessEdges q := by
  obtain ⟨hh, hl, hc, hn⟩ := hq
  cases q with
  | nil => cases hh
  | cons a t =>
    have ha : a = "A" := by
      rw [List.head?_cons] at hh
      exact Option.some.injEq _ _ ▸ hh
    subst ha
    cases t with
    | nil =>
      rw [List.getLast?_singleton] at hl
      exact absurd (Option.some.injEq _ _ ▸ hl) (by decide)
    | cons b t' =>
      have hab := (List.chain'_cons.mp hc).1
      have hb : b = "B" := by
        rcases witness_adj_char "A" b hab with ⟨h1, _⟩ | ⟨_, h2⟩
        · exact absurd h1 (by decide)
        · exact h2
      subst hb
      rw [pathWeight_cons₂]
      have h1 : (edgeWeight witnessEdges "A" "B").getD 0 = 7 := by decide
      have h2 := witness_weight_nonneg ("B" :: t')
      omega

/-- The one-edge path is shortest from `A` to `B` in the witness graph. -/
theorem witness_shortAB :
    IsShortestPath witnessEdges "A" "B" ["A", "B"] := by
  refine ⟨witness_pathAB, ?_⟩
  intro q hq
  have h1 : pathWeight witnessEdges ["A", "B"] = 7 := by decide
  rw [h1]
  exact witness_minAB q hq

/-- The concrete oracle meets the shortest-path contract on the witness
graph. -/
theorem witness_oracle_contract : ∀ u v, u ≠ v →
    (∀ p, spWitness u v = some p → IsShortestPath witnessEdges u v p) ∧
    (spWitness u v = none ↔ ¬ Reachable witnessEdges u v) := by
  intro u v huv
  constructor
  · intro p hp
    by_cases h1 : u = "A" ∧ v = "B"
    · obtain ⟨rfl, rfl⟩ := h1
      rw [spWitness] at hp
      simp at hp
      rw [← hp]
      exact witness_shortAB
    · by_cases h2 : u = "B" ∧ v = "A"
      · obtain ⟨rfl, rfl⟩ := h2
        rw [spWitness] at hp
        simp at hp
        rw [← hp]
        have := isShortestPath_reverse witnessEdges "A" "B" ["A", "B"]
          witness_shortAB
        simpa using this
      · rw [spWitness] at hp
        simp only [h1, h2, if_false] at hp
        cases hp
  · constructor
    · intro hnone hreach
      obtain ⟨q, hq⟩ := hreach
      obtain ⟨⟨x, hux⟩, ⟨y, hyv⟩⟩ := isPath_ends_adjacent witnessEdges u v q hq huv
      have hu := witness_adj_char u x hux
      have hv := witness_adj_char y v hyv
      rw [spWitness] at hnone
      rcases hu with ⟨hu1, _⟩ | ⟨hu1, _⟩ <;> rcases hv with ⟨_, hv1⟩ | ⟨_, hv1⟩ <;>
        subst hu1 <;> subst hv1 <;> simp at hnone huv
    · intro hnreach
      by_cases h1 : u = "A" ∧ v = "B"
      · obtain ⟨rfl, rfl⟩ := h1
        exact absurd ⟨["A", "B"], witness_pathAB⟩ hnreach
      · by_cases h2 : u = "B" ∧ v = "A"
        · obtain ⟨rfl, rfl⟩ := h2
          exact absurd ⟨["B", "A"],
            isPath_reverse witnessEdges "A" "B" ["A", "B"] witness_pathAB⟩ hnreach
        · rw [spWitness]
          simp [h1, h2]

/-- No path reaches `C` in the witness graph. -/
theorem witness_unreachable_C : ¬ Reachable witnessEdges "A" "C" := by
  rintro ⟨q, hq⟩
  obtain ⟨-, ⟨y, hyC⟩⟩ := isPath_ends_adjacent witnessEdges "A" "C" q hq (by decide)
  rcases witness_adj_char y "C" hyC with ⟨-, h⟩ | ⟨-, h⟩ <;> exact absurd h (by decide)

/-- Witness for C2 at a concrete two-router, one-midpoint network: the cost
entry and edge for midpoint `M`, an installed rule for the reachable ordered
pair `(A, B)` with next hop `B`, and no rule for the unreachable pair
`(A, C)`. -/
theorem c2_static_routing_witness :
    lookupA (buildCosts id
        [(⟨"qc1", 0, 3, "A", "M"⟩ : QChanObj String), ⟨"qc2", 0, 4, "B", "M"⟩]) "M" =
      some [PyV.s "B", PyV.s "A", PyV.i 7] ∧
    ("B", "A", (7 : ℤ)) ∈ witnessEdges ∧
    ("A", "B", "B") ∈ staticRules spWitness ["A", "B"]
      (graph_nodes_with_edges ["A", "B"] witnessEdges) ∧
    ("A", "C", "x") ∉ staticRules spWitness ["A", "B"]
      (graph_nodes_with_edges ["A", "B"] witnessEdges) := by
  have hedges : buildEdges (buildCosts id
      [(⟨"qc1", 0, 3, "A", "M"⟩ : QChanObj String), ⟨"qc2", 0, 4, "B", "M"⟩]) =
      .ok witnessEdges := by decide
  have h := c2_static_routing id
    [(⟨"qc1", 0, 3, "A", "M"⟩ : QChanObj String), ⟨"qc2", 0, 4, "B", "M"⟩]
    spWitness ["A", "B"] ["A", "B"] witnessEdges hedges witness_oracle_contract
  have ha := h.1 "M" ⟨"qc1", 0, 3, "A", "M"⟩ ⟨"qc2", 0, 4, "B", "M"⟩ (by decide)
  refine ⟨ha.1, ha.2, by decide, ?_⟩
  exact h.2.2 "A" "C" "x" witness_unreachable_C

end Seq
